import Mathlib

/-!
Verification of the linkable-media editor core (custom image node, link
resolver, upload pipeline, URL policy) as a shallow embedding of the two
source files `editor.tsx` and `menu-bar.tsx`.
-/

namespace TiptapMedia

/-- A JavaScript attribute value as stored in a media-node attribute:
either a string or a number (the schema's `width`/`height` admit both). -/
inductive AttrVal
  | str (s : String)
  | num (n : Int)
deriving DecidableEq, Repr

/-- JavaScript truthiness of an attribute value: the empty string and the
number 0 are falsy, everything else is truthy. -/
def AttrVal.truthy : AttrVal → Bool
  | .str s => s ≠ ""
  | .num n => n ≠ 0

/-- The string the value renders to when written into an HTML attribute
(numbers are stringified by the DOM). -/
def AttrVal.render : AttrVal → String
  | .str s => s
  | .num n => toString n

/-- Truthiness of a nullable attribute value: `null`/absent is falsy. -/
def truthyOpt : Option AttrVal → Bool
  | none => false
  | some v => v.truthy

/-- The attribute set of a `customImage` node, as declared in
`CustomImage.addAttributes`: every attribute defaults to `null`. -/
structure NodeAttrs where
  src : Option AttrVal := none
  alt : Option AttrVal := none
  title : Option AttrVal := none
  width : Option AttrVal := none
  height : Option AttrVal := none
  href : Option AttrVal := none
deriving DecidableEq, Repr

/-!
## Media node schema: HTML serialization (`CustomImage.renderHTML`)

The tiptap pipeline for rendering a node:
first each declared attribute is rendered (`getRenderedAttributes`): an
attribute without a custom `renderHTML` contributes its (possibly null)
value under its name; `width`, `height` and `href` have custom renderers
that contribute nothing when the value is falsy.  The node's `renderHTML`
then splits off `href`, merges the remaining attributes over the
configured `options.HTMLAttributes`, and ProseMirror's `renderSpec`
finally drops attributes whose value is null when building the DOM.
-/

/-- One rendered-attribute entry: attribute name paired with a nullable
value (`none` models a JavaScript `null` entry, which `renderSpec` later
drops). -/
abbrev RenderedAttrs := List (String × Option AttrVal)

/-- The merged result of rendering each declared attribute of
`CustomImage.addAttributes` on a node, in declaration order.  `src`,
`alt`, `title` use the default rendering (name ↦ value, even when null);
`width`, `height`, `href` use the custom renderers from the source, which
return an empty record when the value is falsy. -/
def getRenderedAttributes (a : NodeAttrs) : RenderedAttrs :=
  [(("src" : String), a.src), (("alt" : String), a.alt), (("title" : String), a.title)]
    ++ (if truthyOpt a.width then [(("width" : String), a.width)] else [])
    ++ (if truthyOpt a.height then [(("height" : String), a.height)] else [])
    ++ (if truthyOpt a.href then [(("href" : String), a.href)] else [])

/-- tiptap's `mergeAttributes` restricted to plain attributes: later
records override earlier ones, new keys are appended in order.  (The
source special-cases `class` and `style` by concatenation; the only
merge in `CustomImage.renderHTML` uses `options.HTMLAttributes`, which is
configured as the empty record `{}`, so no `class`/`style` key ever
reaches the merge.) -/
def mergeAttributes (base over : RenderedAttrs) : RenderedAttrs :=
  base.map (fun kv =>
    match List.lookup kv.1 over with
    | some v => (kv.1, v)
    | none => kv)
  ++ over.filter (fun kv => (List.lookup kv.1 base).isNone)

/-- ProseMirror's `renderSpec` step: write each non-null attribute into
the DOM element, stringifying the value; null attributes are omitted. -/
def renderSpecAttrs (l : RenderedAttrs) : List (String × String) :=
  l.filterMap fun kv => kv.2.map fun v => (kv.1, v.render)

/-- The HTML fragments the media node schema produces or consumes: a bare
`img` element, or an `a` element directly wrapping an `img` element.
Each element carries its present attributes as name/value pairs. -/
inductive HtmlFragment
  | img (attrs : List (String × String))
  | anchorImg (aAttrs : List (String × String)) (imgAttrs : List (String × String))
deriving DecidableEq, Repr

/-- `CustomImage.renderHTML` from the source: destructure `href` out of
the rendered attributes; if it is truthy emit `["a", { href }, ["img",
merged]]`, otherwise emit `["img", merged]`, where `merged` merges the
remaining rendered attributes over `options.HTMLAttributes`. -/
def renderHTML (optionsHTMLAttributes : RenderedAttrs) (a : NodeAttrs) : HtmlFragment :=
  let rendered := getRenderedAttributes a
  let imgAttributes := rendered.filter fun kv => kv.1 ≠ "href"
  let mergedImgAttributes := mergeAttributes optionsHTMLAttributes imgAttributes
  match List.lookup ("href" : String) rendered with
  | some (some v) =>
    if v.truthy then
      .anchorImg [(("href" : String), v.render)] (renderSpecAttrs mergedImgAttributes)
    else
      .img (renderSpecAttrs mergedImgAttributes)
  | _ => .img (renderSpecAttrs mergedImgAttributes)

/-- The configured `options.HTMLAttributes` of this editor: `addOptions`
returns `HTMLAttributes: {}` and the extension is installed as plain
`CustomImage` with no `.configure`, so the record stays empty. -/
def defaultHTMLAttributes : RenderedAttrs := []

/-- Serialization of a media node under this editor's configuration. -/
def serializeNode (a : NodeAttrs) : HtmlFragment :=
  renderHTML defaultHTMLAttributes a

/-!
## Media node schema: HTML parsing (`CustomImage.parseHTML`)

Two parse rules, tried in order.  Rule 1 has tag selector
`a[href] img[src]` — an `img` element carrying a `src` attribute with an
`a[href]` ancestor — and reads `href` from the element's direct parent.
Rule 2 has tag selector `img[src]:not([src^="data:"])` (or `img[src]`
when `allowBase64` is set) and fixes `href` to null.  In both rules
`getAttrs` returns every attribute explicitly, and tiptap merges that
record over the attribute-level `parseHTML` results with the rule's
record taking precedence, so the rule's `getAttrs` fully determines the
parsed attributes.
-/

/-- Attribute lookup on a parsed HTML element (`getAttribute`): `none`
models a missing attribute. -/
def getAttr (attrs : List (String × String)) (name : String) : Option String :=
  List.lookup name attrs

/-- Whether the first parse rule's selector `a[href] img[src]` matches an
`img` element: the element must carry `src` and some ancestor must be an
`a` element carrying `href`.  In the fragments of `HtmlFragment` the only
possible ancestor is the direct parent anchor. -/
def rule1Matches (parentA : Option (List (String × String))) (imgAttrs : List (String × String)) : Bool :=
  (match parentA with
   | some pa => (getAttr pa ("href")).isSome
   | none => false)
  && (getAttr imgAttrs ("src")).isSome

/-- `getAttrs` of the first parse rule: all image attributes from the
`img` element, `href` from `dom.parentNode`. -/
def rule1GetAttrs (parentA : Option (List (String × String))) (imgAttrs : List (String × String)) : NodeAttrs :=
  { src := (getAttr imgAttrs ("src")).map .str
    href := (match parentA with
             | some pa => (getAttr pa ("href")).map .str
             | none => none)
    alt := (getAttr imgAttrs ("alt")).map .str
    title := (getAttr imgAttrs ("title")).map .str
    width := (getAttr imgAttrs ("width")).map .str
    height := (getAttr imgAttrs ("height")).map .str }

/-- JavaScript `s.startsWith(p)`: character-wise prefix test. -/
def strStartsWith (s p : String) : Bool :=
  p.toList.isPrefixOf s.toList

/-- Whether the second parse rule's selector matches an `img` element:
`img[src]` when `allowBase64` is set, otherwise
`img[src]:not([src^="data:"])`. -/
def rule2Matches (allowBase64 : Bool) (imgAttrs : List (String × String)) : Bool :=
  match getAttr imgAttrs ("src") with
  | some s => allowBase64 || !(strStartsWith s ("data:"))
  | none => false

/-- `getAttrs` of the second parse rule: image attributes from the `img`
element, `href` explicitly null. -/
def rule2GetAttrs (imgAttrs : List (String × String)) : NodeAttrs :=
  { src := (getAttr imgAttrs ("src")).map .str
    href := none
    alt := (getAttr imgAttrs ("alt")).map .str
    title := (getAttr imgAttrs ("title")).map .str
    width := (getAttr imgAttrs ("width")).map .str
    height := (getAttr imgAttrs ("height")).map .str }

/-- Apply the two parse rules, in declaration order, to one `img`
element (with its direct parent, if that parent is an anchor).  The first
matching rule wins. -/
def parseImgElement (allowBase64 : Bool) (parentA : Option (List (String × String)))
    (imgAttrs : List (String × String)) : Option NodeAttrs :=
  if rule1Matches parentA imgAttrs then some (rule1GetAttrs parentA imgAttrs)
  else if rule2Matches allowBase64 imgAttrs then some (rule2GetAttrs imgAttrs)
  else none

/-- Parse a fragment into the list of `customImage` nodes it yields, in
document order.  An `a` element matches neither rule (both selectors
require an `img` tag), so the parser descends into it; only the `img`
element can produce a node. -/
def parseFragment (allowBase64 : Bool) : HtmlFragment → List NodeAttrs
  | .img attrs => (parseImgElement allowBase64 none attrs).toList
  | .anchorImg aAttrs imgAttrs => (parseImgElement allowBase64 (some aAttrs) imgAttrs).toList

example : serializeNode { src := some (.str "u"), href := some (.str "h") }
    = .anchorImg [(("href"), ("h"))] [(("src"), ("u"))] := by decide

example : serializeNode { src := some (.str "u"), href := some (.str "") }
    = .img [(("src"), ("u"))] := by decide

example : serializeNode { src := some (.str "u"), width := some (.num 0), alt := some (.str "") }
    = .img [(("src"), ("u")), (("alt"), (""))] := by decide

example : parseFragment false (.anchorImg [(("href"), ("X"))] [(("src"), ("Y"))])
    = [{ src := some (.str "Y"), href := some (.str "X") }] := by decide

example : parseFragment false (.img [(("src"), ("data:abc"))]) = [] := by decide

example : parseFragment true (.img [(("src"), ("data:abc"))])
    = [{ src := some (.str "data:abc") }] := by decide

/-!
## Document model and the selection scan of `menu-bar.tsx`

`setLink`, `handleSaveLink` and `unsetLink` all run
`editor.state.doc.nodesBetween($from.pos, $to.pos, (n, p) => ...)` with a
callback that records every `customImage` it sees into two mutable
variables and returns `false` for it (which only stops the *descent* into
that node, not the iteration over its siblings).  We model a ProseMirror
document as blocks of inline nodes with the standard position arithmetic
(a paragraph contributes an opening and a closing token, a text node its
character count, an atom node 1) and replay `nodesBetween` faithfully.
-/

/-- A ProseMirror node as needed here: text runs and atomic `customImage`
nodes inside paragraphs. -/
inductive PMNode
  | text (s : String)
  | customImage (attrs : NodeAttrs)
  | paragraph (children : List PMNode)

mutual

/-- `node.nodeSize`: text counts its characters, an atom counts 1, a
parent node counts its content plus the two boundary tokens. -/
def PMNode.nodeSize : PMNode → Nat
  | .text s => s.length
  | .customImage _ => 1
  | .paragraph cs => 2 + nodeSizeList cs

/-- `fragment.size`: the sum of the children's sizes. -/
def nodeSizeList : List PMNode → Nat
  | [] => 0
  | n :: ns => n.nodeSize + nodeSizeList ns

end

mutual

/-- `Fragment.nodesBetween` specialised to the callback of
`setLink`/`handleSaveLink`/`unsetLink`: `acc` is the current value of the
mutable `node`/`pos` pair, overwritten by every `customImage` whose span
overlaps the range.  A child at offset `pos` is visited when
`pos < toP` and `pos + nodeSize > fromP`; the callback returns `false`
exactly on `customImage` (skipping its — empty — content), so the walk
descends into every other visited node with the range rebased by
`start = pos + 1`. -/
def scanList : List PMNode → Nat → Nat → Nat → Nat → Option (NodeAttrs × Nat) →
    Option (NodeAttrs × Nat)
  | [], _, _, _, _, acc => acc
  | child :: rest, pos, fromP, toP, nodeStart, acc =>
    if pos < toP ∧ pos + child.nodeSize > fromP then
      scanList rest (pos + child.nodeSize) fromP toP nodeStart
        (scanNode child pos fromP toP nodeStart acc)
    else
      scanList rest (pos + child.nodeSize) fromP toP nodeStart acc

/-- The per-node step of the walk: record a `customImage` (overwriting
the accumulator), descend into a paragraph, ignore text. -/
def scanNode : PMNode → Nat → Nat → Nat → Nat → Option (NodeAttrs × Nat) →
    Option (NodeAttrs × Nat)
  | .customImage a, pos, _, _, nodeStart, _ => some (a, nodeStart + pos)
  | .text _, _, _, _, _, acc => acc
  | .paragraph cs, pos, fromP, toP, nodeStart, acc =>
    scanList cs 0 (fromP - (pos + 1)) (min (nodeSizeList cs) (toP - (pos + 1)))
      (nodeStart + pos + 1) acc

end

/-- The `nodesBetween` scan of `menu-bar.tsx`: the final value of the
mutable `node`/`pos` pair after walking the whole document. -/
def findCustomImage (doc : List PMNode) (fromP toP : Nat) : Option (NodeAttrs × Nat) :=
  scanList doc 0 fromP toP 0 none

mutual

/-- Specification-side collector: every `customImage` the walk visits, in
visit order, together with its absolute position. -/
def imagesList : List PMNode → Nat → Nat → Nat → Nat → List (NodeAttrs × Nat)
  | [], _, _, _, _ => []
  | child :: rest, pos, fromP, toP, nodeStart =>
    if pos < toP ∧ pos + child.nodeSize > fromP then
      imagesNode child pos fromP toP nodeStart
        ++ imagesList rest (pos + child.nodeSize) fromP toP nodeStart
    else
      imagesList rest (pos + child.nodeSize) fromP toP nodeStart

/-- Per-node step of the collector, mirroring `scanNode`. -/
def imagesNode : PMNode → Nat → Nat → Nat → Nat → List (NodeAttrs × Nat)
  | .customImage a, pos, _, _, nodeStart => [(a, nodeStart + pos)]
  | .text _, _, _, _, _ => []
  | .paragraph cs, pos, fromP, toP, nodeStart =>
    imagesList cs 0 (fromP - (pos + 1)) (min (nodeSizeList cs) (toP - (pos + 1)))
      (nodeStart + pos + 1)

end

/-- The `customImage` nodes whose spans the selection range touches, in
the order `nodesBetween` visits them. -/
def imagesInRange (doc : List PMNode) (fromP toP : Nat) : List (NodeAttrs × Nat) :=
  imagesList doc 0 fromP toP 0

/-!
## `setLink` and `handleSaveLink`
-/

/-- The result of `setLink`: which branch opened the dialog, and the
prefill written into the URL field. -/
inductive LinkDialogMode
  | node (prefill : String)
  | text (prefill : String)
deriving DecidableEq, Repr

/-- JavaScript `x || ""` on a nullable attribute value. -/
def orEmpty : Option AttrVal → String
  | some v => if v.truthy then v.render else ""
  | none => ""

/-- `setLink` from `menu-bar.tsx`: scan the selection range for a
`customImage`; if one was recorded, open the dialog prefilled with the
node's `href || ""`; otherwise open it prefilled with the active link
mark's `href || ""` (the link mark is owned by the document engine and is
passed in as `activeLinkHref`). -/
def setLink (doc : List PMNode) (fromP toP : Nat) (activeLinkHref : Option String) :
    LinkDialogMode :=
  match findCustomImage doc fromP toP with
  | some (attrs, _) => .node (orEmpty attrs.href)
  | none =>
    .text (match activeLinkHref with
           | some s => s
           | none => "")

/-- JS line terminators, which `.` never matches and `$` (without the
multiline flag) does not tolerate before the end. -/
def isLineTerminator (c : Char) : Bool :=
  c = '\n' || c = '\r' || c.val = 0x2028 || c.val = 0x2029

/-- The dialog's URL validation `/^https?:\/\/.+$/.test(linkUrl)`:
`http://` or `https://` followed by at least one character, none of which
is a line terminator. -/
def isValidLinkUrl (s : String) : Bool :=
  (strStartsWith s ("http://") && decide (7 < s.length)
      && !((s.toList.drop 7).any isLineTerminator))
  || (strStartsWith s ("https://") && decide (8 < s.length)
      && !((s.toList.drop 8).any isLineTerminator))

/-- The document-engine mutation (or error report) `handleSaveLink`
issues. -/
inductive SaveLinkAction
  | fieldError (msg : String)
  | setNodeMarkup (pos : Nat) (attrs : NodeAttrs)
  | unsetLinkMark
  | setLinkMark (href : String)
deriving DecidableEq, Repr

/-- `handleSaveLink` from `menu-bar.tsx`: a non-empty URL failing the
regex reports a field error and mutates nothing; otherwise, if the scan
recorded a `customImage`, rewrite that node's markup with
`{ ...attrs, href: linkUrl || null }`; otherwise fall back to the link
mark (`unsetLink` on the empty URL, `setLink` else). -/
def handleSaveLink (doc : List PMNode) (fromP toP : Nat) (linkUrl : String) :
    SaveLinkAction :=
  if linkUrl ≠ "" && !isValidLinkUrl linkUrl then
    .fieldError ("Please enter a valid URL (e.g., https://example.com)")
  else
    match findCustomImage doc fromP toP with
    | some (attrs, pos) =>
      .setNodeMarkup pos
        { attrs with href := if linkUrl = "" then none else some (.str linkUrl) }
    | none =>
      if linkUrl = "" then .unsetLinkMark else .setLinkMark linkUrl

example :
    setLink [.paragraph [.text "ab", .customImage { src := some (.str "u") }, .text "cd"]]
      2 4 none = .node "" := by decide

example :
    setLink [.paragraph [.text "ab", .text "cd"]] 2 4 (some "x") = .text "x" := by decide

example :
    handleSaveLink [.paragraph [.customImage { src := some (.str "u"), alt := some (.str "a") }]]
      1 2 ("https://e.com")
    = .setNodeMarkup 1
        ({ src := some (.str "u"), alt := some (.str "a"), href := some (.str "https://e.com") })
    := by decide

example :
    handleSaveLink [.paragraph [.customImage { src := some (.str "u") }]] 1 2 ("nope")
    = .fieldError ("Please enter a valid URL (e.g., https://example.com)") := by decide

/-!
## Upload pipeline (`handleDrop` / `handlePaste` in `editor.tsx`)

Both handlers are synchronous up to the `uploadFile(...)` calls: they
partition the gesture's files by MIME type, warn once if anything was
rejected, abort if nothing was accepted, call `event.preventDefault()`,
read `view.state.selection.from` into the local constant `pos`, and start
one upload per accepted file.  Each upload's continuation closes over
`pos` and, on resolution, inserts a fresh `customImage` node at `pos` (or
reports a failure toast).  We model the synchronous phase as a trace of
observable events plus a list of pending tasks, and a completed gesture
as that trace followed by the continuations run in an arbitrary order.
-/

/-- A file carried by a drop/paste/picker gesture: a name and the
declared MIME type. -/
structure JSFile where
  name : String
  type : String
deriving DecidableEq, Repr

/-- How the transport collaborator settles one upload. -/
inductive UploadOutcome
  | success (fileUrl : String)
  | failure
deriving DecidableEq, Repr

/-- The MIME allow-list shared by `handleDrop`, `handlePaste` and
`handleFileChange`. -/
def acceptedTypes : List String := [("image/jpeg"), ("image/png"), ("image/gif")]

/-- Observable events of one gesture, in order of occurrence. -/
inductive GestureEvent
  | warnToast (msg : String)
  | captureSelection (pos : Nat)
  | startUpload (file : JSFile)
  | insertNode (pos : Nat) (attrs : NodeAttrs)
  | successToast (name : String)
  | errorToast (name : String)
deriving DecidableEq, Repr

/-- One in-flight upload: the file and the document position its
continuation closed over. -/
structure UploadTask where
  file : JSFile
  targetPosition : Nat
deriving DecidableEq, Repr

/-- What the synchronous phase of a gesture handler produced. -/
structure SyncResult where
  events : List GestureEvent
  tasks : List UploadTask
  prevented : Bool
  handled : Bool
deriving DecidableEq, Repr

/-- The aggregate warning text of `handleDrop`. -/
def dropWarnMsg : String := "Please Drop only valid image files (JPEG, PNG, or GIF)"

/-- The aggregate warning text of `handlePaste`. -/
def pasteWarnMsg : String := "Please paste only valid image files (JPEG, PNG, or GIF)."

/-- The synchronous phase of `handleDrop`.  `selectionFrom` is
`view.state.selection.from` at gesture time; `files` is
`event.dataTransfer.files`. -/
def handleDropSync (selectionFrom : Nat) (files : List JSFile) : SyncResult :=
  if files.isEmpty then
    { events := [], tasks := [], prevented := false, handled := false }
  else
    let imageFiles := files.filter fun f => acceptedTypes.contains f.type
    let invalidFiles := files.filter fun f => !acceptedTypes.contains f.type
    let warnEvents : List GestureEvent :=
      if invalidFiles.length > 0 then [.warnToast dropWarnMsg] else []
    if imageFiles.isEmpty then
      { events := warnEvents, tasks := [], prevented := false, handled := false }
    else
      let pos := selectionFrom
      { events := warnEvents ++ [.captureSelection pos]
          ++ imageFiles.map (fun f => .startUpload f)
        tasks := imageFiles.map fun f => { file := f, targetPosition := pos }
        prevented := true
        handled := true }

/-- The synchronous phase of `handlePaste` — identical to `handleDrop`
except for the warning text and the event source
(`event.clipboardData.files`). -/
def handlePasteSync (selectionFrom : Nat) (files : List JSFile) : SyncResult :=
  if files.isEmpty then
    { events := [], tasks := [], prevented := false, handled := false }
  else
    let imageFiles := files.filter fun f => acceptedTypes.contains f.type
    let invalidFiles := files.filter fun f => !acceptedTypes.contains f.type
    let warnEvents : List GestureEvent :=
      if invalidFiles.length > 0 then [.warnToast pasteWarnMsg] else []
    if imageFiles.isEmpty then
      { events := warnEvents, tasks := [], prevented := false, handled := false }
    else
      let pos := selectionFrom
      { events := warnEvents ++ [.captureSelection pos]
          ++ imageFiles.map (fun f => .startUpload f)
        tasks := imageFiles.map fun f => { file := f, targetPosition := pos }
        prevented := true
        handled := true }

/-- The continuation attached to one upload (`then`/`catch` in the
handlers): on success, create `schema.nodes.customImage.create({ src:
fileUrl })` — every other attribute defaults to null — and dispatch
`view.state.tr.insert(pos, node)` with the closed-over `pos`; on failure,
report a per-file error toast and mutate nothing. -/
def completeTask (outcome : JSFile → UploadOutcome) (t : UploadTask) : List GestureEvent :=
  match outcome t.file with
  | .success fileUrl =>
    [.insertNode t.targetPosition { src := some (.str fileUrl) },
     .successToast t.file.name]
  | .failure => [.errorToast t.file.name]

/-- The events of the asynchronous continuations, run in the order the
uploads happen to settle. -/
def completionEvents (outcome : JSFile → UploadOutcome) (order : List UploadTask) :
    List GestureEvent :=
  order.foldr (fun t acc => completeTask outcome t ++ acc) []

/-- The full observable trace of a gesture whose uploads settle in the
order given by `order` (any interleaving of the pending tasks). -/
def gestureTrace (sync : SyncResult) (outcome : JSFile → UploadOutcome)
    (order : List UploadTask) : List GestureEvent :=
  sync.events ++ completionEvents outcome order

/-!
## File-picker upload (`handleFileChange` in `menu-bar.tsx`)
-/

/-- What one file-picker gesture produced: the error toasts shown, the
file (if any) handed to `uploadFile`, and the attributes of the inserted
node (if the upload succeeded). -/
structure FilePickOutcome where
  errorToasts : List String
  uploadedFile : Option JSFile
  insertedAttrs : Option NodeAttrs
deriving DecidableEq, Repr

/-- `handleFileChange` from `menu-bar.tsx` (with the editor mounted):
only `event.target.files?.[0]` is ever read; an unsupported first file is
reported and nothing is uploaded; otherwise the single file is uploaded
and, on success, `setImage({ src: fileUrl, width: undefined, height:
undefined })` inserts a node whose remaining attributes take their `null`
defaults; on failure an error toast is shown and nothing is inserted. -/
def handleFileChange (files : List JSFile) (outcome : JSFile → UploadOutcome) :
    FilePickOutcome :=
  match files.head? with
  | none => { errorToasts := [], uploadedFile := none, insertedAttrs := none }
  | some file =>
    if !acceptedTypes.contains file.type then
      { errorToasts := [("Please select a valid image file (JPEG, PNG, or GIF).")]
        uploadedFile := none
        insertedAttrs := none }
    else
      match outcome file with
      | .success fileUrl =>
        { errorToasts := []
          uploadedFile := some file
          insertedAttrs := some { src := some (.str fileUrl) } }
      | .failure =>
        { errorToasts := [("Failed to upload image. Please try again.")]
          uploadedFile := some file
          insertedAttrs := none }

/-!
## URL policy (`isAllowedUri` in `editor.tsx`)

`isAllowedUri` calls the platform's `new URL(...)` constructor inside a
`try`/`catch`.  We model the constructor as a partial WHATWG URL parser
sufficient for the scheme/host questions the policy asks: it splits off
an ASCII-alpha-led scheme terminated by `:`, parses an authority (after
optional slashes) for the special schemes `http`, `https`, `ws`, `wss`,
`ftp`, `file`, and treats everything after the colon of a non-special
scheme as an opaque path with an empty hostname unless it begins with
`//`.  A string without a valid scheme, or a special-scheme URL with an
empty or malformed host or a non-numeric port, throws — modelled as
`none`.
-/

/-- The parts of a parsed URL that `isAllowedUri` reads: `protocol` is
reported WHATWG-style with its trailing colon, `hostname` is the
lower-cased host (empty for opaque-path URLs). -/
structure URLParts where
  protocol : String
  hostname : String
deriving DecidableEq, Repr

/-- ASCII letter, the only legal first character of a scheme. -/
def isSchemeStart (c : Char) : Bool := c.isAlpha

/-- Legal non-leading scheme characters. -/
def isSchemeChar (c : Char) : Bool :=
  c.isAlpha || c.isDigit || c = '+' || c = '-' || c = '.'

/-- Split a candidate URL into its scheme (without the colon) and the
remainder after the colon; `none` when no well-formed scheme is
present (which makes the constructor throw). -/
def splitScheme (l : List Char) : Option (List Char × List Char) :=
  match l with
  | [] => none
  | c :: rest =>
    if isSchemeStart c then
      let body := rest.takeWhile isSchemeChar
      match rest.drop body.length with
      | ':' :: tail => some (c :: body, tail)
      | _ => none
    else none

/-- The WHATWG special schemes, which always carry an authority. -/
def specialSchemes : List String :=
  [("ftp"), ("file"), ("http"), ("https"), ("ws"), ("wss")]

/-- Characters that terminate the authority component. -/
def endsAuthority (c : Char) : Bool :=
  c = '/' || c = '\\' || c = '?' || c = '#'

/-- Characters that may not appear in a (non-opaque) host. -/
def isForbiddenHostChar (c : Char) : Bool :=
  c = ' ' || c = '\t' || c = '\n' || c = '\r' || c = '#' || c = '/' || c = ':'
    || c = '<' || c = '>' || c = '?' || c = '@' || c = '[' || c = '\\' || c = ']'
    || c = '^' || c = '|'

/-- Everything after the last `@` of an authority (userinfo is
discarded). -/
def dropUserinfo (l : List Char) : List Char :=
  if l.contains '@' then
    ((l.reverse.takeWhile (fun c => c ≠ '@')).reverse)
  else l

/-- Parse `host[:port]`: the port, when present, must be numeric; the
host may not contain forbidden characters and is lower-cased. -/
def parseHostPort (l : List Char) : Option String :=
  let host := l.takeWhile (fun c => c ≠ ':')
  let portPart := l.drop host.length
  let portOk := match portPart with
    | [] => true
    | _ :: digits => digits.all Char.isDigit
  if portOk && host.all (fun c => !isForbiddenHostChar c) then
    some (String.mk (host.map Char.toLower))
  else none

/-- Model of the platform URL constructor `new URL(input)` restricted to
the fields `isAllowedUri` consumes; `none` models a thrown `TypeError`. -/
def parseURL (input : String) : Option URLParts :=
  match splitScheme input.toList with
  | none => none
  | some (scheme, rest) =>
    let schemeStr := String.mk (scheme.map Char.toLower)
    let protocol := schemeStr ++ (":")
    if specialSchemes.contains schemeStr then
      -- special scheme: any run of slashes is skipped, then an authority
      let afterSlashes := rest.dropWhile (fun c => c = '/' || c = '\\')
      let authority := afterSlashes.takeWhile (fun c => !endsAuthority c)
      match parseHostPort (dropUserinfo authority) with
      | none => none
      | some host =>
        if host = "" && schemeStr ≠ "file" then none
        else some { protocol := protocol, hostname := host }
    else
      match rest with
      | '/' :: '/' :: r =>
        let authority := r.takeWhile (fun c => !endsAuthority c)
        match parseHostPort (dropUserinfo authority) with
        | none => none
        | some host => some { protocol := protocol, hostname := host }
      | _ => some { protocol := protocol, hostname := "" }

/-- JavaScript `protocol.replace(":", "")`: `String.replace` with a
string pattern replaces only the first occurrence. -/
def removeFirstColon : List Char → List Char
  | [] => []
  | c :: cs => if c = ':' then cs else c :: removeFirstColon cs

/-- The fixed protocol denylist of `isAllowedUri`. -/
def disallowedProtocols : List String := [("ftp"), ("file"), ("mailto")]

/-- The fixed domain denylist of `isAllowedUri`. -/
def configuredDisallowedDomains : List String :=
  [("example-phishing.com"), ("malicious-site.net")]

/-- The context the Link extension hands to `isAllowedUri` under this
editor's configuration: `defaultProtocol: "https"`, `protocols: ["http",
"https"]` (all entries are plain strings, so the `p.scheme` branch of the
source's map is never taken). -/
structure LinkCtx where
  defaultProtocol : String
  protocols : List String
deriving DecidableEq, Repr

/-- The configured link context of `editor.tsx`. -/
def linkCtx : LinkCtx := { defaultProtocol := "https", protocols := [("http"), ("https")] }

/-- The URL object `isAllowedUri` builds: `url.includes(":")` decides
whether `url` is parsed as given or with `"<defaultProtocol>://"`
prepended. -/
def linkParsedUrl (url : String) (ctx : LinkCtx) : Option URLParts :=
  if url.toList.contains ':' then parseURL url
  else parseURL (ctx.defaultProtocol ++ ("://") ++ url)

/-- `isAllowedUri` from `editor.tsx`, with the domain denylist as a
parameter (the source fixes it to `configuredDisallowedDomains`): reject
on a parse exception, on a protocol in the fixed disallowed set, on a
protocol outside the allowed set, or on a denylisted hostname. -/
def isAllowedUriWith (disallowedDomains : List String) (url : String) (ctx : LinkCtx) :
    Bool :=
  match linkParsedUrl url ctx with
  | none => false
  | some parsedUrl =>
    let protocol := String.mk (removeFirstColon parsedUrl.protocol.toList)
    if disallowedProtocols.contains protocol then false
    else if !ctx.protocols.contains protocol then false
    else if disallowedDomains.contains parsedUrl.hostname then false
    else true

/-- `isAllowedUri` with the denylist the source hard-codes. -/
def isAllowedUri (url : String) (ctx : LinkCtx) : Bool :=
  isAllowedUriWith configuredDisallowedDomains url ctx

example : parseURL ("https://example.com") = some { protocol := "https:", hostname := "example.com" } := by decide
example : parseURL ("javascript:alert(1)") = some { protocol := "javascript:", hostname := "" } := by decide
example : parseURL ("ftp://host/x") = some { protocol := "ftp:", hostname := "host" } := by decide
example : parseURL ("not a url") = none := by decide
example : isAllowedUri ("example.com") linkCtx = true := by decide
example : isAllowedUri ("javascript:alert(1)") linkCtx = false := by decide
example : isAllowedUri ("ftp://host/x") linkCtx = false := by decide
example : isAllowedUri ("https://example-phishing.com") linkCtx = false := by decide
example : isAllowedUri ("HTTPS://Example.COM/path") linkCtx = true := by decide

/-!
## Inline shorthand (`inputRegex` / `CustomImage.addInputRules`)

The input rule fires when the regex matches the text block content up to
the typing cursor.  We implement the concrete pattern with the JavaScript
engine's backtracking semantics: alternation is tried left-to-right,
quantifiers are greedy (longest candidate first), the optional title
group is tried present-first, `exec` scans candidate start positions
left-to-right, `^` holds only at index 0, `.` excludes line terminators,
`\s`/`\S` use the JS whitespace class.
-/

/-- The JavaScript `\s` character class. -/
def isJsSpace (c : Char) : Bool :=
  c = ' ' || c = '\t' || c = '\n' || c = '\x0b' || c = '\x0c' || c = '\r'
    || c.val = 0xa0 || c.val = 0x1680 || (0x2000 ≤ c.val && c.val ≤ 0x200a)
    || c.val = 0x2028 || c.val = 0x2029 || c.val = 0x202f || c.val = 0x205f
    || c.val = 0x3000 || c.val = 0xfeff

/-- The JavaScript `.` class (without the dotAll flag): everything but a
line terminator. -/
def isDotChar (c : Char) : Bool := !isLineTerminator c

/-- The `["']` class of the title part. -/
def isQuote (c : Char) : Bool := c = '"' || c = '\''

/-- All ways a greedy one-or-more quantifier over the class `p` can split
`l` into a consumed nonempty prefix and a remainder, in the order the
engine tries them: longest prefix first. -/
def greedySplits (p : Char → Bool) (l : List Char) : List (List Char × List Char) :=
  let pref := l.takeWhile p
  (List.range pref.length).map fun k =>
    (pref.take (pref.length - k), l.drop (pref.length - k))

/-- The closing part `["']\)$` after the title capture: the remainder of
a greedy `\S+` split must be a quote immediately followed by the final
`)`. -/
def titleClosing (s2 : List Char × List Char) : Option (Option String) :=
  match s2.2 with
  | q2 :: c :: rest3 =>
    if isQuote q2 = true ∧ c = ')' ∧ rest3 = [] then some (some (String.mk s2.1))
    else none
  | _ => none

/-- The title group after a greedy `\s+` split: an opening quote, then a
greedy `\S+` capture closed by `titleClosing`. -/
def titleGroup (s1 : List Char × List Char) : Option (Option String) :=
  match s1.2 with
  | q1 :: rest2 =>
    if isQuote q1 = true then
      (greedySplits (fun c => !isJsSpace c) rest2).findSome? titleClosing
    else none
  | [] => none

/-- Match `(?:(?:\s+)["'](\S+)["'])?\)$` against `l`, returning the title
capture (`none` when the optional group did not participate).  The
optional group is greedy, so every way of matching it is tried — in
backtracking order — before the group is skipped. -/
def matchTitleThenClose (l : List Char) : Option (Option String) :=
  match (greedySplits isJsSpace l).findSome? titleGroup with
  | some r => some r
  | none => if l = [')'] then some none else none

/-- The continuation of one greedy `\S+` split of the src capture. -/
def srcCont (s : List Char × List Char) : Option (String × Option String) :=
  (matchTitleThenClose s.2).map fun t => (String.mk s.1, t)

/-- Match `(\S+)(?:(?:\s+)["'](\S+)["'])?\)$` against `l`, returning the
`src` and title captures. -/
def matchSrcTail (l : List Char) : Option (String × Option String) :=
  (greedySplits (fun c => !isJsSpace c) l).findSome? srcCont

/-- Match `](` followed by the src/title tail, for a fixed alt capture. -/
def contAfterAlt (alt : String) (rest : List Char) : Option (String × String × Option String) :=
  match rest with
  | c1 :: c2 :: rest2 =>
    if c1 = ']' ∧ c2 = '(' then (matchSrcTail rest2).map fun st => (alt, st.1, st.2)
    else none
  | _ => none

/-- The continuation of one greedy `.+` split of the alt capture. -/
def altCont (s : List Char × List Char) : Option (String × String × Option String) :=
  contAfterAlt (String.mk s.1) s.2

/-- Match `(.+|:?)]\((\S+)(?:(?:\s+)["'](\S+)["'])?\)$` against the text
following `![`.  The first alternative `.+` is tried greedily; only when
every split of it fails is `:?` tried (first consuming `:`, then the
empty string — so the alt capture can legitimately be empty). -/
def matchAltTail (l : List Char) : Option (String × String × Option String) :=
  match (greedySplits isDotChar l).findSome? altCont with
  | some r => some r
  | none =>
    match l with
    | c :: rest =>
      if c = ':' then
        match contAfterAlt (":") rest with
        | some r => some r
        | none => contAfterAlt ("") l
      else contAfterAlt ("") l
    | [] => contAfterAlt ("") l

/-- Match the full captured token `!\[...\)` at the given position,
consuming the input to its end. -/
def matchToken : List Char → Option (String × String × Option String)
  | c1 :: c2 :: rest =>
    if c1 = '!' ∧ c2 = '[' then matchAltTail rest else none
  | _ => none

/-- The three captures the input rule consumes: `match[2]` (alt),
`match[3]` (src), `match[4]` (title, absent when the optional group did
not participate). -/
structure ShorthandMatch where
  alt : String
  src : String
  title : Option String
deriving DecidableEq, Repr

/-- Attempt the whole pattern at one start position: the `^` alternative
applies only at index 0 (`atStart`), otherwise a single `\s` character is
consumed before the token. -/
def tryMatchAt (atStart : Bool) (l : List Char) : Option ShorthandMatch :=
  let viaStart : Option ShorthandMatch :=
    if atStart then (matchToken l).map fun c => ⟨c.1, c.2.1, c.2.2⟩ else none
  match viaStart with
  | some m => some m
  | none =>
    match l with
    | c :: rest =>
      if isJsSpace c then (matchToken rest).map fun c => ⟨c.1, c.2.1, c.2.2⟩ else none
    | [] => none

/-- Left-to-right scan for the leftmost start position at which the
pattern matches, as `RegExp.prototype.exec` does. -/
def execScan : Bool → List Char → Option ShorthandMatch
  | atStart, [] => tryMatchAt atStart []
  | atStart, c :: rest =>
    match tryMatchAt atStart (c :: rest) with
    | some m => some m
    | none => execScan false rest

/-- Run `inputRegex` against the text preceding the cursor. -/
def inputRegexExec (s : String) : Option ShorthandMatch :=
  execScan true s.toList

/-- `getAttributes` of `CustomImage.addInputRules`: destructure
`[, , alt, src, title]` from the match and instantiate the node with
those three attributes (an absent title stays `null` via the attribute
default; an empty alt capture is the empty string, not `null`). -/
def shorthandAttrs (m : ShorthandMatch) : NodeAttrs :=
  { src := some (.str m.src)
    alt := some (.str m.alt)
    title := m.title.map .str
    width := none
    height := none
    href := none }

example : inputRegexExec ("![a](b)") = some ⟨"a", "b", none⟩ := by decide
example : inputRegexExec ("x ![a](b \"t\")") = some ⟨"a", "b", some "t"⟩ := by decide
example : inputRegexExec ("![:](b)") = some ⟨":", "b", none⟩ := by decide
example : inputRegexExec ("![](b)") = some ⟨"", "b", none⟩ := by decide
example : inputRegexExec ("x![a](b)") = none := by decide
example : inputRegexExec ("![a](b) ") = none := by decide
example : inputRegexExec ("![a](b c)") = none := by decide
example : inputRegexExec ("![a](b 't')") = some ⟨"a", "b", some "t"⟩ := by decide
example : inputRegexExec ("hello") = none := by decide
example : inputRegexExec ("![a](b) ![c](d)") = some ⟨"a](b) ![c", "d", none⟩ := by decide

/-!
## Helper lemmas: serialization structure
-/

/-- The contribution of one default-rendered attribute to the final
element: present with its rendered value iff the node value is
non-null. -/
def optEntry (k : String) (v : Option AttrVal) : List (String × String) :=
  match v with
  | some x => [(k, x.render)]
  | none => []

/-- The contribution of a custom-rendered (`width`/`height`) attribute:
present iff the value is truthy. -/
def truthyEntry (k : String) (v : Option AttrVal) : List (String × String) :=
  if truthyOpt v then optEntry k v else []

/-- The attribute list of the emitted `img` element. -/
def imgOutput (a : NodeAttrs) : List (String × String) :=
  renderSpecAttrs (mergeAttributes defaultHTMLAttributes
    ((getRenderedAttributes a).filter fun kv => kv.1 ≠ "href"))

lemma mergeAttributes_nil (over : RenderedAttrs) : mergeAttributes [] over = over := by
  unfold mergeAttributes
  simp [List.lookup]

lemma filter_rendered_ne_href (a : NodeAttrs) :
    (getRenderedAttributes a).filter (fun kv => kv.1 ≠ "href")
      = [(("src"), a.src), (("alt"), a.alt), (("title"), a.title)]
        ++ (if truthyOpt a.width then [(("width"), a.width)] else [])
        ++ (if truthyOpt a.height then [(("height"), a.height)] else []) := by
  unfold getRenderedAttributes
  by_cases hw : truthyOpt a.width <;> by_cases hh : truthyOpt a.height <;>
    by_cases hf : truthyOpt a.href <;> simp [hw, hh, hf]

lemma lookup_href_rendered (a : NodeAttrs) :
    List.lookup ("href" : String) (getRenderedAttributes a)
      = if truthyOpt a.href then some a.href else none := by
  unfold getRenderedAttributes
  by_cases hw : truthyOpt a.width <;> by_cases hh : truthyOpt a.height <;>
    by_cases hf : truthyOpt a.href <;> simp [hw, hh, hf, List.lookup]

lemma renderSpecAttrs_append (l1 l2 : RenderedAttrs) :
    renderSpecAttrs (l1 ++ l2) = renderSpecAttrs l1 ++ renderSpecAttrs l2 := by
  simp [renderSpecAttrs]

lemma renderSpecAttrs_cons (k : String) (v : Option AttrVal) (l : RenderedAttrs) :
    renderSpecAttrs ((k, v) :: l) = optEntry k v ++ renderSpecAttrs l := by
  rcases v with _ | x <;> simp [renderSpecAttrs, optEntry]

lemma renderSpecAttrs_truthy (k : String) (v : Option AttrVal) :
    renderSpecAttrs (if truthyOpt v then [(k, v)] else []) = truthyEntry k v := by
  rcases v with _ | x
  · simp [truthyOpt, truthyEntry, renderSpecAttrs]
  · by_cases hx : x.truthy <;>
      simp [truthyOpt, hx, truthyEntry, renderSpecAttrs, optEntry]

/-- Each attribute of the emitted `img` element is exactly its
`optEntry`/`truthyEntry` contribution, in declaration order. -/
lemma imgOutput_spec (a : NodeAttrs) :
    imgOutput a
      = optEntry ("src") a.src ++ optEntry ("alt") a.alt ++ optEntry ("title") a.title
        ++ truthyEntry ("width") a.width ++ truthyEntry ("height") a.height := by
  unfold imgOutput defaultHTMLAttributes
  rw [mergeAttributes_nil, filter_rendered_ne_href]
  rw [renderSpecAttrs_append, renderSpecAttrs_append, renderSpecAttrs_cons,
    renderSpecAttrs_cons, renderSpecAttrs_cons, renderSpecAttrs_truthy,
    renderSpecAttrs_truthy]
  simp [renderSpecAttrs]

lemma serializeNode_of_truthy_href (a : NodeAttrs) (v : AttrVal) (h : a.href = some v)
    (hv : v.truthy = true) :
    serializeNode a = .anchorImg [(("href"), v.render)] (imgOutput a) := by
  have ht : truthyOpt a.href = true := by rw [h]; exact hv
  unfold serializeNode renderHTML imgOutput defaultHTMLAttributes
  simp only [lookup_href_rendered, ht, if_true, h, hv]
  simp [truthyOpt, hv]

lemma serializeNode_of_falsy_href (a : NodeAttrs) (h : truthyOpt a.href = false) :
    serializeNode a = .img (imgOutput a) := by
  unfold serializeNode renderHTML imgOutput defaultHTMLAttributes
  simp only [lookup_href_rendered, h, if_false]
  simp

lemma length_le_toDigitsCore (f : Nat) :
    ∀ (b n : Nat) (l : List Char), l.length ≤ (Nat.toDigitsCore b f n l).length := by
  induction f with
  | zero => intro b n l; simp [Nat.toDigitsCore]
  | succ f ih =>
    intro b n l
    simp only [Nat.toDigitsCore]
    by_cases h : n / b = 0
    · simp [h]
    · simp only [h, if_false]
      calc l.length ≤ (Nat.digitChar (n % b) :: l).length := by simp
        _ ≤ _ := ih b (n / b) (Nat.digitChar (n % b) :: l)

lemma natRepr_ne_empty (n : Nat) : Nat.repr n ≠ "" := by
  have h2 : 1 ≤ (Nat.toDigits 10 n).length := by
    show 1 ≤ (Nat.toDigitsCore 10 (n + 1) n []).length
    rw [show Nat.toDigitsCore 10 (n + 1) n []
        = if n / 10 = 0 then [Nat.digitChar (n % 10)]
          else Nat.toDigitsCore 10 n (n / 10) [Nat.digitChar (n % 10)] from rfl]
    by_cases h : n / 10 = 0
    · simp [h]
    · rw [if_neg h]
      simpa using length_le_toDigitsCore n 10 (n / 10) [Nat.digitChar (n % 10)]
  intro hc
  have h1 : (Nat.repr n).length = (Nat.toDigits 10 n).length := rfl
  rw [hc] at h1
  simp only [String.length_empty] at h1
  omega

/-- A truthy attribute value renders to a nonempty string, hence the
rendered string is itself truthy. -/
lemma render_ne_empty_of_truthy (v : AttrVal) (hv : v.truthy = true) :
    v.render ≠ "" := by
  cases v with
  | str s =>
    simp only [AttrVal.truthy, decide_eq_true_eq] at hv
    simpa [AttrVal.render] using hv
  | num n =>
    show Int.repr n ≠ ""
    cases n with
    | ofNat m => exact natRepr_ne_empty m
    | negSucc m =>
      intro hc
      have hlen : (Int.negSucc m).repr.length = 1 + (Nat.repr (m + 1)).length := by
        show (("-" : String) ++ Nat.repr (m + 1)).length = 1 + (Nat.repr (m + 1)).length
        rcases Nat.repr (m + 1) with ⟨l⟩
        show (['-'] ++ l).length = 1 + l.length
        simp [Nat.add_comm]
      have h0 : (Int.negSucc m).repr.length = 0 := by rw [hc]; rfl
      omega

/-!
## Helper lemmas: attribute lookup on the emitted element
-/

lemma lookup_optEntry_ne (k k' : String) (v : Option AttrVal) (l : List (String × String))
    (h : k ≠ k') :
    List.lookup k (optEntry k' v ++ l) = List.lookup k l := by
  rcases v with _ | x <;>
    simp [optEntry, List.lookup, beq_eq_false_iff_ne.mpr h]

lemma lookup_optEntry_self (k : String) (v : Option AttrVal) (l : List (String × String)) :
    List.lookup k (optEntry k v ++ l)
      = match v with
        | some x => some x.render
        | none => List.lookup k l := by
  rcases v with _ | x <;> simp [optEntry, List.lookup]

lemma lookup_truthyEntry_ne (k k' : String) (v : Option AttrVal)
    (l : List (String × String)) (h : k ≠ k') :
    List.lookup k (truthyEntry k' v ++ l) = List.lookup k l := by
  unfold truthyEntry
  by_cases t : truthyOpt v
  · rw [if_pos t]; exact lookup_optEntry_ne k k' v l h
  · rw [if_neg t]; rfl

lemma lookup_truthyEntry_self (k : String) (v : Option AttrVal)
    (l : List (String × String)) :
    List.lookup k (truthyEntry k v ++ l)
      = if truthyOpt v then v.map AttrVal.render else List.lookup k l := by
  unfold truthyEntry
  by_cases t : truthyOpt v
  · rw [if_pos t, if_pos t, lookup_optEntry_self]
    rcases v with _ | x
    · simp [truthyOpt] at t
    · rfl
  · rw [if_neg t, if_neg t]; rfl

lemma lookup_truthyEntry_bare_ne (k k' : String) (v : Option AttrVal) (h : k ≠ k') :
    List.lookup k (truthyEntry k' v) = none := by
  have := lookup_truthyEntry_ne k k' v [] h
  simpa using this

lemma lookup_truthyEntry_bare_self (k : String) (v : Option AttrVal) :
    List.lookup k (truthyEntry k v)
      = if truthyOpt v then v.map AttrVal.render else none := by
  have := lookup_truthyEntry_self k v []
  simpa using this

lemma getAttr_imgOutput_src (a : NodeAttrs) :
    getAttr (imgOutput a) ("src") = a.src.map AttrVal.render := by
  unfold getAttr
  rw [imgOutput_spec]
  simp only [List.append_assoc]
  rw [lookup_optEntry_self]
  rcases a.src with _ | x
  · rw [lookup_optEntry_ne _ _ _ _ (by decide), lookup_optEntry_ne _ _ _ _ (by decide),
      lookup_truthyEntry_ne _ _ _ _ (by decide),
      lookup_truthyEntry_bare_ne _ _ _ (by decide)]
    rfl
  · rfl

lemma getAttr_imgOutput_alt (a : NodeAttrs) :
    getAttr (imgOutput a) ("alt") = a.alt.map AttrVal.render := by
  unfold getAttr
  rw [imgOutput_spec]
  simp only [List.append_assoc]
  rw [lookup_optEntry_ne _ _ _ _ (by decide), lookup_optEntry_self]
  rcases a.alt with _ | x
  · rw [lookup_optEntry_ne _ _ _ _ (by decide),
      lookup_truthyEntry_ne _ _ _ _ (by decide),
      lookup_truthyEntry_bare_ne _ _ _ (by decide)]
    rfl
  · rfl

lemma getAttr_imgOutput_title (a : NodeAttrs) :
    getAttr (imgOutput a) ("title") = a.title.map AttrVal.render := by
  unfold getAttr
  rw [imgOutput_spec]
  simp only [List.append_assoc]
  rw [lookup_optEntry_ne _ _ _ _ (by decide), lookup_optEntry_ne _ _ _ _ (by decide),
    lookup_optEntry_self]
  rcases a.title with _ | x
  · rw [lookup_truthyEntry_ne _ _ _ _ (by decide),
      lookup_truthyEntry_bare_ne _ _ _ (by decide)]
    rfl
  · rfl

lemma getAttr_imgOutput_width (a : NodeAttrs) :
    getAttr (imgOutput a) ("width")
      = if truthyOpt a.width then a.width.map AttrVal.render else none := by
  unfold getAttr
  rw [imgOutput_spec]
  simp only [List.append_assoc]
  rw [lookup_optEntry_ne _ _ _ _ (by decide), lookup_optEntry_ne _ _ _ _ (by decide),
    lookup_optEntry_ne _ _ _ _ (by decide), lookup_truthyEntry_self]
  rw [lookup_truthyEntry_bare_ne _ _ _ (by decide)]

lemma getAttr_imgOutput_height (a : NodeAttrs) :
    getAttr (imgOutput a) ("height")
      = if truthyOpt a.height then a.height.map AttrVal.render else none := by
  unfold getAttr
  rw [imgOutput_spec]
  simp only [List.append_assoc]
  rw [lookup_optEntry_ne _ _ _ _ (by decide), lookup_optEntry_ne _ _ _ _ (by decide),
    lookup_optEntry_ne _ _ _ _ (by decide), lookup_truthyEntry_ne _ _ _ _ (by decide),
    lookup_truthyEntry_bare_self]

/-!
## Helper lemmas: the parse → serialize round trip
-/

/-- The value an attribute comes back as after a parse of serialized
output: its rendered string. -/
def normAV (v : AttrVal) : AttrVal := .str v.render

/-- The attribute set obtained by reparsing the serialization of `a`:
every surviving attribute is its rendered string, `width`/`height` (and
the anchor) survive iff they were truthy. -/
def reparsedAttrs (a : NodeAttrs) : NodeAttrs :=
  { src := a.src.map normAV
    alt := a.alt.map normAV
    title := a.title.map normAV
    width := if truthyOpt a.width then a.width.map normAV else none
    height := if truthyOpt a.height then a.height.map normAV else none
    href := if truthyOpt a.href then a.href.map normAV else none }

lemma truthy_normAV (v : AttrVal) (hv : v.truthy = true) : (normAV v).truthy = true := by
  have := render_ne_empty_of_truthy v hv
  simp [normAV, AttrVal.truthy, this]

lemma parseFragment_anchor (b : Bool) (aA iA : List (String × String)) :
    parseFragment b (.anchorImg aA iA) = (parseImgElement b (some aA) iA).toList := rfl

lemma parseFragment_img (b : Bool) (iA : List (String × String)) :
    parseFragment b (.img iA) = (parseImgElement b none iA).toList := rfl

lemma map_norm_comp (x : Option AttrVal) :
    Option.map (AttrVal.str ∘ AttrVal.render) x = Option.map normAV x := by
  rcases x <;> rfl

lemma parse_serializeNode (a : NodeAttrs) (s : AttrVal) (hsrc : a.src = some s)
    (hok : truthyOpt a.href = true ∨ strStartsWith s.render ("data:") = false) :
    parseFragment false (serializeNode a) = [reparsedAttrs a] := by
  have h2 : getAttr (imgOutput a) ("src") = some s.render := by
    rw [getAttr_imgOutput_src, hsrc]; rfl
  by_cases hf : truthyOpt a.href
  · rcases h' : a.href with _ | v
    · rw [h'] at hf; simp [truthyOpt] at hf
    · have hv : v.truthy = true := by
        rw [h'] at hf; simpa [truthyOpt] using hf
      have h1 : getAttr [(("href"), v.render)] ("href") = some v.render := by
        simp [getAttr, List.lookup]
      rw [serializeNode_of_truthy_href a v h' hv, parseFragment_anchor]
      have key : parseImgElement false (some [(("href"), v.render)]) (imgOutput a)
          = some (reparsedAttrs a) := by
        unfold parseImgElement
        rw [if_pos (by simp [rule1Matches, h1, h2])]
        unfold rule1GetAttrs reparsedAttrs
        simp only [h1, h2, getAttr_imgOutput_alt, getAttr_imgOutput_title,
          getAttr_imgOutput_width, getAttr_imgOutput_height, hsrc, h', hf, if_true]
        simp [Option.map_map, apply_ite (Option.map AttrVal.str), map_norm_comp,
          truthyOpt, hv]
        exact ⟨rfl, rfl⟩
      rw [key]
      rfl
  · rw [serializeNode_of_falsy_href a (by simpa using hf), parseFragment_img]
    have hdata : strStartsWith s.render ("data:") = false := by
      rcases hok with h | h
      · exact absurd h hf
      · exact h
    have hb : truthyOpt a.href = false := by simpa using hf
    have key : parseImgElement false none (imgOutput a) = some (reparsedAttrs a) := by
      unfold parseImgElement
      rw [if_neg (by simp [rule1Matches])]
      rw [if_pos (by simp [rule2Matches, h2, hdata])]
      unfold rule2GetAttrs reparsedAttrs
      simp only [h2, getAttr_imgOutput_alt, getAttr_imgOutput_title,
        getAttr_imgOutput_width, getAttr_imgOutput_height, hsrc, hb, if_false]
      simp [Option.map_map, apply_ite (Option.map AttrVal.str), map_norm_comp]
      rfl
    rw [key]
    rfl

lemma optEntry_norm (k : String) (v : Option AttrVal) :
    optEntry k (v.map normAV) = optEntry k v := by
  rcases v with _ | x <;> simp [optEntry, normAV, AttrVal.render]

lemma truthyEntry_norm (k : String) (v : Option AttrVal) :
    truthyEntry k (if truthyOpt v then v.map normAV else none) = truthyEntry k v := by
  rcases v with _ | x
  · simp [truthyOpt, truthyEntry]
  · by_cases hx : x.truthy
    · simp only [truthyOpt, hx, if_true, Option.map_some]
      unfold truthyEntry
      rw [if_pos (by simpa [truthyOpt] using truthy_normAV x hx),
        if_pos (by simpa [truthyOpt] using hx)]
      exact optEntry_norm k (some x)
    · simp [truthyOpt, hx, truthyEntry]

lemma imgOutput_reparsed (a : NodeAttrs) : imgOutput (reparsedAttrs a) = imgOutput a := by
  rw [imgOutput_spec, imgOutput_spec]
  show optEntry _ (a.src.map normAV) ++ optEntry _ (a.alt.map normAV)
      ++ optEntry _ (a.title.map normAV)
      ++ truthyEntry _ (if truthyOpt a.width then a.width.map normAV else none)
      ++ truthyEntry _ (if truthyOpt a.height then a.height.map normAV else none) = _
  rw [optEntry_norm, optEntry_norm, optEntry_norm, truthyEntry_norm, truthyEntry_norm]

lemma serializeNode_reparsed (a : NodeAttrs) :
    serializeNode (reparsedAttrs a) = serializeNode a := by
  by_cases hf : truthyOpt a.href
  · rcases h' : a.href with _ | v
    · rw [h'] at hf; simp [truthyOpt] at hf
    · have hv : v.truthy = true := by
        rw [h'] at hf; simpa [truthyOpt] using hf
      have hr : (reparsedAttrs a).href = some (normAV v) := by
        show (if truthyOpt a.href then a.href.map normAV else none) = _
        rw [if_pos hf, h']; rfl
      rw [serializeNode_of_truthy_href (reparsedAttrs a) (normAV v) hr (truthy_normAV v hv),
        serializeNode_of_truthy_href a v h' hv, imgOutput_reparsed]
      rfl
  · have hb : truthyOpt a.href = false := by simpa using hf
    have hr : truthyOpt (reparsedAttrs a).href = false := by
      show truthyOpt (if truthyOpt a.href then a.href.map normAV else none) = false
      rw [hb, if_neg (by simp)]
      rfl
    rw [serializeNode_of_falsy_href (reparsedAttrs a) hr,
      serializeNode_of_falsy_href a hb, imgOutput_reparsed]

/-!
## Claim C2: anchor-precedence of the parse rules
-/

/-- C2: parsing the fragment `<a href="X"><img src="Y"></a>` yields
exactly one media node, with `href = X` and `src = Y` — never two nodes
and never a node with a null `href` — because the anchor-wraps-image rule
is tried before the bare-image rule and matches the anchor-wrapped
image. -/
theorem parse_anchor_wrapped_image (X Y : String) :
    parseFragment false (.anchorImg [(("href"), X)] [(("src"), Y)])
      = [{ src := some (.str Y), alt := none, title := none, width := none,
           height := none, href := some (.str X) }] := by
  rw [parseFragment_anchor]
  unfold parseImgElement
  rw [if_pos (by simp [rule1Matches, getAttr, List.lookup])]
  unfold rule1GetAttrs
  simp [getAttr, List.lookup]

/-!
## Claim C3: the serialize → parse → serialize round trip
-/

/-- An attribute set that is structurally valid (non-null `src`) but
whose serialization the parser refuses: a `data:` source with no
anchor. -/
def dataUriNode : NodeAttrs := { src := some (.str "data:image/png;base64,AA") }

/-- C3 counterexample: `dataUriNode` has a non-null `src`, yet
serialize → parse yields no node at all (the bare-image rule excludes
`data:` sources under the default `allowBase64 = false`), so the round
trip does not reproduce the original serialization. -/
theorem roundtrip_counterexample :
    dataUriNode.src ≠ none ∧
      (parseFragment false (serializeNode dataUriNode)).map serializeNode
        ≠ [serializeNode dataUriNode] := by decide

/-- C3 (amended): for every attribute set with a non-null `src`, the
serialize → parse → serialize round trip reproduces the first
serialization attribute-for-attribute, except in the one family the
counterexample exposes — a falsy `href` together with a rendered `src`
starting with `data:`, which the bare-image rule refuses under the
default `allowBase64 = false`. -/
theorem roundtrip_serialize_parse_serialize (a : NodeAttrs) (s : AttrVal)
    (hsrc : a.src = some s)
    (hok : truthyOpt a.href = true ∨ strStartsWith s.render ("data:") = false) :
    (parseFragment false (serializeNode a)).map serializeNode = [serializeNode a] := by
  rw [parse_serializeNode a s hsrc hok]
  simp [serializeNode_reparsed]

/-- A concrete fully-populated node for the round-trip instance. -/
def rtWitnessNode : NodeAttrs :=
  { src := some (.str "u"), alt := some (.str "x"), width := some (.num 40),
    href := some (.str "h") }

/-- Concrete instance of the round-trip theorem. -/
theorem roundtrip_serialize_parse_serialize_witness :
    (parseFragment false (serializeNode rtWitnessNode)).map serializeNode
      = [serializeNode rtWitnessNode] :=
  roundtrip_serialize_parse_serialize rtWitnessNode (.str "u") rfl (Or.inl (by decide))

/-!
## Claim C4: serialization shape and null-attribute omission
-/

/-- A node whose `href` is non-null but empty. -/
def emptyHrefNode : NodeAttrs := { src := some (.str "u"), href := some (.str "") }

/-- C4 counterexample: `emptyHrefNode.href` is non-null, yet the node
serializes as a bare `img` with no surrounding anchor, because
`renderHTML` drops the anchor for every falsy `href` (`if (href)`), not
only for null. -/
theorem serialize_empty_href_counterexample :
    emptyHrefNode.href ≠ none ∧
      serializeNode emptyHrefNode = .img [(("src"), ("u"))] := by decide

/-- C4 (amended): serialization emits an `a` element wrapping the `img`
exactly when `href` is truthy (non-null and nonempty), and a bare `img`
when `href` is null — or, departing from the claim, also when it is
non-null but falsy; the `img` carries exactly the node's non-null
attributes (with falsy `width`/`height` additionally dropped) merged over
the statically configured default attributes (empty in this editor), and
a null attribute never appears in the output — in particular `width =
null` serializes with no `width` attribute. -/
theorem serialize_anchor_iff_truthy_href (a : NodeAttrs) :
    (truthyOpt a.href = true →
      ∃ v, a.href = some v
        ∧ serializeNode a = .anchorImg [(("href"), v.render)] (imgOutput a))
    ∧ (truthyOpt a.href = false → serializeNode a = .img (imgOutput a))
    ∧ imgOutput a
        = optEntry ("src") a.src ++ optEntry ("alt") a.alt ++ optEntry ("title") a.title
          ++ truthyEntry ("width") a.width ++ truthyEntry ("height") a.height
    ∧ (a.src = none → getAttr (imgOutput a) ("src") = none)
    ∧ (a.alt = none → getAttr (imgOutput a) ("alt") = none)
    ∧ (a.title = none → getAttr (imgOutput a) ("title") = none)
    ∧ (a.width = none → getAttr (imgOutput a) ("width") = none)
    ∧ (a.height = none → getAttr (imgOutput a) ("height") = none) := by
  refine ⟨?_, serializeNode_of_falsy_href a, imgOutput_spec a, ?_, ?_, ?_, ?_, ?_⟩
  · intro ht
    rcases h' : a.href with _ | v
    · rw [h'] at ht; simp [truthyOpt] at ht
    · have hv : v.truthy = true := by rw [h'] at ht; simpa [truthyOpt] using ht
      exact ⟨v, rfl, serializeNode_of_truthy_href a v h' hv⟩
  · intro h; rw [getAttr_imgOutput_src, h]; rfl
  · intro h; rw [getAttr_imgOutput_alt, h]; rfl
  · intro h; rw [getAttr_imgOutput_title, h]; rfl
  · intro h; rw [getAttr_imgOutput_width, h]; simp [truthyOpt]
  · intro h; rw [getAttr_imgOutput_height, h]; simp [truthyOpt]

/-- Concrete instance of the serialization-shape theorem. -/
theorem serialize_anchor_iff_truthy_href_witness :
    ∃ v, ({ src := some (.str "u"), href := some (.str "h") } : NodeAttrs).href = some v
      ∧ serializeNode { src := some (.str "u"), href := some (.str "h") }
          = .anchorImg [(("href"), v.render)]
              (imgOutput { src := some (.str "u"), href := some (.str "h") }) :=
  (serialize_anchor_iff_truthy_href
    { src := some (.str "u"), href := some (.str "h") }).1 (by decide)

/-!
## Helper lemmas: the mutable-variable scan equals the last visited image
-/

/-- The value of a mutable variable that every element of `l` overwrites
in turn, starting from `acc`. -/
def lastOr (l : List (NodeAttrs × Nat)) (acc : Option (NodeAttrs × Nat)) :
    Option (NodeAttrs × Nat) :=
  l.foldl (fun _ x => some x) acc

lemma lastOr_append (a b : List (NodeAttrs × Nat)) (acc : Option (NodeAttrs × Nat)) :
    lastOr (a ++ b) acc = lastOr b (lastOr a acc) := by
  simp [lastOr, List.foldl_append]

lemma lastOr_eq_some (l : List (NodeAttrs × Nat)) :
    ∀ (acc : Option (NodeAttrs × Nat)) (x : NodeAttrs × Nat),
      lastOr l acc = some x → x ∈ l ∨ acc = some x := by
  induction l with
  | nil => intro acc x h; exact Or.inr h
  | cons y ys ih =>
    intro acc x h
    rcases ih (some y) x h with hm | he
    · exact Or.inl (List.mem_cons_of_mem y hm)
    · obtain rfl : y = x := Option.some_injective _ he
      exact Or.inl (List.mem_cons_self _ _)

lemma lastOr_ne_none (l : List (NodeAttrs × Nat)) (h : l ≠ []) (acc : Option (NodeAttrs × Nat)) :
    (lastOr l acc).isSome := by
  induction l generalizing acc with
  | nil => exact absurd rfl h
  | cons y ys ih =>
    rcases Decidable.em (ys = []) with h' | h'
    · subst h'; simp [lastOr]
    · exact ih h' (some y)

mutual

theorem scanNode_eq (n : PMNode) (pos fromP toP nodeStart : Nat)
    (acc : Option (NodeAttrs × Nat)) :
    scanNode n pos fromP toP nodeStart acc
      = lastOr (imagesNode n pos fromP toP nodeStart) acc := by
  cases n with
  | text s => rfl
  | customImage a => rfl
  | paragraph cs =>
    exact scanList_eq cs 0 (fromP - (pos + 1)) (min (nodeSizeList cs) (toP - (pos + 1)))
      (nodeStart + pos + 1) acc

theorem scanList_eq (l : List PMNode) (pos fromP toP nodeStart : Nat)
    (acc : Option (NodeAttrs × Nat)) :
    scanList l pos fromP toP nodeStart acc
      = lastOr (imagesList l pos fromP toP nodeStart) acc := by
  cases l with
  | nil => rfl
  | cons child rest =>
    unfold scanList imagesList
    by_cases hc : pos < toP ∧ pos + child.nodeSize > fromP
    · rw [if_pos hc, if_pos hc, scanList_eq rest, scanNode_eq child, lastOr_append]
    · rw [if_neg hc, if_neg hc, scanList_eq rest]

end

/-- The scan's mutable result is the last image `nodesBetween` visited. -/
lemma findCustomImage_eq (doc : List PMNode) (fromP toP : Nat) :
    findCustomImage doc fromP toP = lastOr (imagesInRange doc fromP toP) none :=
  scanList_eq doc 0 fromP toP 0 none

/-!
## Claim C5: node mode wins whenever a media node is in range
-/

/-- C5: whenever the selection range touches at least one media node,
invoking attach resolves to node mode — the dialog is prefilled with a
touched node's current `href || ""` and a commit can only report a field
error or rewrite that node's markup, never touch a text link mark; text
mode is chosen only when no media node is in range. -/
theorem attach_node_mode_precedence (doc : List PMNode) (fromP toP : Nat)
    (activeLinkHref : Option String) :
    (imagesInRange doc fromP toP ≠ [] →
      ∃ attrs pos,
        findCustomImage doc fromP toP = some (attrs, pos)
        ∧ (attrs, pos) ∈ imagesInRange doc fromP toP
        ∧ setLink doc fromP toP activeLinkHref = .node (orEmpty attrs.href)
        ∧ ∀ linkUrl,
            handleSaveLink doc fromP toP linkUrl ≠ .unsetLinkMark
            ∧ (∀ u, handleSaveLink doc fromP toP linkUrl ≠ .setLinkMark u)
            ∧ (∀ p na, handleSaveLink doc fromP toP linkUrl = .setNodeMarkup p na →
                p = pos))
    ∧ (∀ pre, setLink doc fromP toP activeLinkHref = .text pre →
        imagesInRange doc fromP toP = []) := by
  constructor
  · intro h
    have hs : (findCustomImage doc fromP toP).isSome := by
      rw [findCustomImage_eq]; exact lastOr_ne_none _ h none
    rcases hfind : findCustomImage doc fromP toP with _ | ⟨attrs, pos⟩
    · rw [hfind] at hs; simp at hs
    · have hmem : (attrs, pos) ∈ imagesInRange doc fromP toP := by
        have h' := hfind
        rw [findCustomImage_eq] at h'
        rcases lastOr_eq_some _ none (attrs, pos) h' with hm | hc
        · exact hm
        · cases hc
      refine ⟨attrs, pos, rfl, hmem, ?_, ?_⟩
      · unfold setLink; rw [hfind]
      · intro linkUrl
        unfold handleSaveLink
        by_cases hb : (linkUrl ≠ "" && !isValidLinkUrl linkUrl) = true
        · rw [if_pos hb]
          exact ⟨by simp, fun u => by simp, fun p na hpn => by simp at hpn⟩
        · rw [if_neg hb, hfind]
          refine ⟨by simp, fun u => by simp, fun p na hpn => ?_⟩
          injection hpn with h1 h2
          exact h1.symm
  · intro pre hset
    by_contra himg
    have hs : (findCustomImage doc fromP toP).isSome := by
      rw [findCustomImage_eq]; exact lastOr_ne_none _ himg none
    unfold setLink at hset
    rcases hfind : findCustomImage doc fromP toP with _ | ⟨attrs, pos⟩
    · rw [hfind] at hs; simp at hs
    · rw [hfind] at hset; cases hset

/-- A document with a media node flanked by text, as in the node-plus-
adjacent-text scenario. -/
def mixedDoc : List PMNode :=
  [.paragraph [.text "ab",
    .customImage { src := some (.str "u"), href := some (.str "h") }, .text "cd"]]

/-- Concrete instance of the node-mode-precedence theorem on a selection
covering a media node plus surrounding text. -/
theorem attach_node_mode_precedence_witness :
    ∃ attrs pos,
      findCustomImage mixedDoc 1 6 = some (attrs, pos)
      ∧ (attrs, pos) ∈ imagesInRange mixedDoc 1 6
      ∧ setLink mixedDoc 1 6 none = .node (orEmpty attrs.href)
      ∧ ∀ linkUrl,
          handleSaveLink mixedDoc 1 6 linkUrl ≠ .unsetLinkMark
          ∧ (∀ u, handleSaveLink mixedDoc 1 6 linkUrl ≠ .setLinkMark u)
          ∧ (∀ p na, handleSaveLink mixedDoc 1 6 linkUrl = .setNodeMarkup p na →
              p = pos) :=
  (attach_node_mode_precedence mixedDoc 1 6 none).1 (by decide)

/-!
## Claim C6: a node-mode commit changes only `href`
-/

/-- C6: when a node-mode commit succeeds (the handler issues a
`setNodeMarkup` transaction), the rewritten attribute set differs from
the scanned node's only in `href`: `src`, `alt`, `title`, `width`,
`height` are preserved, and `href` becomes the submitted URL, or null
when the URL is the empty string. -/
theorem node_commit_changes_only_href (doc : List PMNode) (fromP toP : Nat)
    (linkUrl : String) (pos : Nat) (na : NodeAttrs)
    (h : handleSaveLink doc fromP toP linkUrl = .setNodeMarkup pos na) :
    ∃ attrs, findCustomImage doc fromP toP = some (attrs, pos)
      ∧ na.src = attrs.src ∧ na.alt = attrs.alt ∧ na.title = attrs.title
      ∧ na.width = attrs.width ∧ na.height = attrs.height
      ∧ na.href = (if linkUrl = "" then none else some (.str linkUrl)) := by
  unfold handleSaveLink at h
  rcases hfind : findCustomImage doc fromP toP with _ | ⟨attrs, p⟩ <;> rw [hfind] at h
  · by_cases hval : (linkUrl ≠ "" && !isValidLinkUrl linkUrl) = true
    · rw [if_pos hval] at h; cases h
    · rw [if_neg hval] at h
      by_cases he : linkUrl = "" <;> simp [he] at h
  · by_cases hb : (linkUrl ≠ "" && !isValidLinkUrl linkUrl) = true
    · rw [if_pos hb] at h; cases h
    · rw [if_neg hb] at h
      injection h with h1 h2
      subst h1
      subst h2
      exact ⟨attrs, rfl, rfl, rfl, rfl, rfl, rfl, rfl⟩

/-- The scanned node of the concrete commit instance. -/
def commitAttrs : NodeAttrs :=
  { src := some (.str "u"), alt := some (.str "a"), width := some (.num 40) }

/-- Document for the concrete commit instance. -/
def commitDoc : List PMNode := [.paragraph [.customImage commitAttrs]]

/-- The attribute set the concrete commit writes back. -/
def committedAttrs : NodeAttrs :=
  { src := some (.str "u"), alt := some (.str "a"), width := some (.num 40),
    href := some (.str "https://e.com") }

/-- Concrete instance of the commit theorem: committing
`https://e.com` over `commitDoc` rewrites only `href`. -/
theorem node_commit_changes_only_href_witness :
    ∃ attrs, findCustomImage commitDoc 1 2 = some (attrs, 1)
      ∧ committedAttrs.src = attrs.src ∧ committedAttrs.alt = attrs.alt
      ∧ committedAttrs.title = attrs.title ∧ committedAttrs.width = attrs.width
      ∧ committedAttrs.height = attrs.height
      ∧ committedAttrs.href
          = (if ("https://e.com" : String) = "" then none
             else some (.str ("https://e.com"))) :=
  node_commit_changes_only_href commitDoc 1 2 ("https://e.com") 1 committedAttrs
    (by decide)

/-!
## Helper lemmas: gesture traces
-/

/-- Whether the event is the selection read. -/
def isCaptureEvent : GestureEvent → Bool
  | .captureSelection _ => true
  | _ => false

/-- Whether the event starts an upload. -/
def isStartUploadEvent : GestureEvent → Bool
  | .startUpload _ => true
  | _ => false

/-- Whether the event is a document insertion. -/
def isInsertEvent : GestureEvent → Bool
  | .insertNode _ _ => true
  | _ => false

/-- Whether the event is an aggregate warning toast. -/
def isWarnEvent : GestureEvent → Bool
  | .warnToast _ => true
  | _ => false

/-- Whether an upload settled successfully. -/
def isSuccessOutcome : UploadOutcome → Bool
  | .success _ => true
  | .failure => false

lemma mem_completionEvents (outcome : JSFile → UploadOutcome) (order : List UploadTask)
    (e : GestureEvent) :
    e ∈ completionEvents outcome order ↔ ∃ t ∈ order, e ∈ completeTask outcome t := by
  induction order with
  | nil => simp [completionEvents]
  | cons t ts ih =>
    simp only [completionEvents, List.foldr_cons, List.mem_append]
    rw [show List.foldr (fun t acc => completeTask outcome t ++ acc) [] ts
        = completionEvents outcome ts from rfl, ih]
    simp

lemma completeTask_no_capture (outcome : JSFile → UploadOutcome) (t : UploadTask)
    (e : GestureEvent) (he : e ∈ completeTask outcome t) :
    isCaptureEvent e = false ∧ isStartUploadEvent e = false ∧ isWarnEvent e = false := by
  unfold completeTask at he
  rcases h : outcome t.file with u | _ <;> rw [h] at he <;> simp at he
  · rcases he with rfl | rfl <;> exact ⟨rfl, rfl, rfl⟩
  · rw [he]; exact ⟨rfl, rfl, rfl⟩

lemma insert_mem_completeTask (outcome : JSFile → UploadOutcome) (t : UploadTask)
    (p : Nat) (a : NodeAttrs) (he : GestureEvent.insertNode p a ∈ completeTask outcome t) :
    p = t.targetPosition ∧ ∃ u, outcome t.file = .success u
      ∧ a = { src := some (.str u) } := by
  unfold completeTask at he
  rcases h : outcome t.file with u | _ <;> rw [h] at he <;> simp at he
  · exact ⟨he.1, u, rfl, he.2⟩

lemma countP_insert_completeTask (outcome : JSFile → UploadOutcome) (t : UploadTask) :
    (completeTask outcome t).countP (fun e => isInsertEvent e)
      = if isSuccessOutcome (outcome t.file) then 1 else 0 := by
  unfold completeTask
  rcases h : outcome t.file with u | _ <;>
    simp [h, isSuccessOutcome, List.countP_cons, isInsertEvent]

lemma countP_insert_completionEvents (outcome : JSFile → UploadOutcome)
    (order : List UploadTask) :
    (completionEvents outcome order).countP (fun e => isInsertEvent e)
      = order.countP (fun t => isSuccessOutcome (outcome t.file)) := by
  induction order with
  | nil => simp [completionEvents]
  | cons t ts ih =>
    simp only [completionEvents, List.foldr_cons, List.countP_append]
    rw [show List.foldr (fun t acc => completeTask outcome t ++ acc) [] ts
        = completionEvents outcome ts from rfl, ih,
      countP_insert_completeTask, List.countP_cons]
    by_cases h : isSuccessOutcome (outcome t.file) <;> simp [h]
    · omega

lemma warn_not_special (e : GestureEvent) (h : isWarnEvent e = true) :
    isCaptureEvent e = false ∧ isStartUploadEvent e = false ∧ isInsertEvent e = false := by
  cases e <;> simp_all [isWarnEvent, isCaptureEvent, isStartUploadEvent, isInsertEvent]

lemma filter_isEmpty_false {α : Type} (p : α → Bool) (l : List α)
    (h : l.filter p ≠ []) : (l.filter p).isEmpty = false := by
  cases hfl : l.filter p
  · exact absurd hfl h
  · rfl

lemma ne_nil_isEmpty_false {α : Type} (l : List α) (h : l ≠ []) :
    l.isEmpty = false := by
  cases l
  · exact absurd rfl h
  · rfl

/-- The aggregate-warning prefix of a gesture's events. -/
def gestureWarnEvents (msg : String) (files : List JSFile) : List GestureEvent :=
  if 0 < (files.filter fun f => !acceptedTypes.contains f.type).length
  then [.warnToast msg] else []

/-- The sync result of a gesture none of whose files was accepted. -/
def rejectedSync (msg : String) (files : List JSFile) : SyncResult :=
  { events := gestureWarnEvents msg files
    tasks := []
    prevented := false
    handled := false }

/-- The sync result of a gesture with at least one accepted file: the
optional warning, the single selection capture, one upload start and one
pending task per accepted file. -/
def acceptedSync (msg : String) (selFrom : Nat) (files : List JSFile) : SyncResult :=
  { events := gestureWarnEvents msg files ++ [.captureSelection selFrom]
      ++ (files.filter fun f => acceptedTypes.contains f.type).map
          (fun f => .startUpload f)
    tasks := (files.filter fun f => acceptedTypes.contains f.type).map
      (fun f => { file := f, targetPosition := selFrom })
    prevented := true
    handled := true }

/-- Shape of `handleDropSync` when some file was accepted: one optional
warning, then the single selection capture, then the upload starts, with
one pending task per accepted file closing over the captured position. -/
lemma handleDropSync_accepted (selFrom : Nat) (files : List JSFile)
    (h : files.filter (fun f => acceptedTypes.contains f.type) ≠ []) :
    handleDropSync selFrom files = acceptedSync dropWarnMsg selFrom files := by
  have hne : files ≠ [] := by
    intro hc; rw [hc] at h; exact h rfl
  unfold handleDropSync
  rw [if_neg (by rw [ne_nil_isEmpty_false files hne]; exact Bool.false_ne_true)]
  rw [if_neg (by rw [filter_isEmpty_false _ files h]; exact Bool.false_ne_true)]
  rfl

/-- Shape of `handleDropSync` when no file was accepted: no capture, no
tasks, unhandled, only the possible aggregate warning. -/
lemma handleDropSync_rejected (selFrom : Nat) (files : List JSFile)
    (h : files.filter (fun f => acceptedTypes.contains f.type) = []) :
    handleDropSync selFrom files = rejectedSync dropWarnMsg files := by
  unfold handleDropSync
  by_cases hf : files.isEmpty
  · have : files = [] := by
      cases files
      · rfl
      · cases hf
    subst this
    simp [rejectedSync, gestureWarnEvents]
  · rw [if_neg hf]
    rw [if_pos (by rw [h]; rfl)]
    rfl

/-- Shape of `handlePasteSync` when some file was accepted. -/
lemma handlePasteSync_accepted (selFrom : Nat) (files : List JSFile)
    (h : files.filter (fun f => acceptedTypes.contains f.type) ≠ []) :
    handlePasteSync selFrom files = acceptedSync pasteWarnMsg selFrom files := by
  have hne : files ≠ [] := by
    intro hc; rw [hc] at h; exact h rfl
  unfold handlePasteSync
  rw [if_neg (by rw [ne_nil_isEmpty_false files hne]; exact Bool.false_ne_true)]
  rw [if_neg (by rw [filter_isEmpty_false _ files h]; exact Bool.false_ne_true)]
  rfl

/-- Shape of `handlePasteSync` when no file was accepted. -/
lemma handlePasteSync_rejected (selFrom : Nat) (files : List JSFile)
    (h : files.filter (fun f => acceptedTypes.contains f.type) = []) :
    handlePasteSync selFrom files = rejectedSync pasteWarnMsg files := by
  unfold handlePasteSync
  by_cases hf : files.isEmpty
  · have : files = [] := by
      cases files
      · rfl
      · cases hf
    subst this
    simp [rejectedSync, gestureWarnEvents]
  · rw [if_neg hf]
    rw [if_pos (by rw [h]; rfl)]
    rfl

/-!
## Claim C1: the insertion position is captured once, before the uploads
-/

/-- Position stability of one gesture: every pending task closed over the
captured position, every insertion of every completion interleaving
targets that position, and the trace contains exactly one selection read,
before any upload start or insertion. -/
def PositionCaptureOnce (selectionFrom : Nat) (sync : SyncResult)
    (outcome : JSFile → UploadOutcome) (order : List UploadTask) : Prop :=
  (∀ t ∈ sync.tasks, t.targetPosition = selectionFrom)
  ∧ (∀ p a, GestureEvent.insertNode p a ∈ gestureTrace sync outcome order →
      p = selectionFrom)
  ∧ ∃ pre post,
      gestureTrace sync outcome order
        = pre ++ GestureEvent.captureSelection selectionFrom :: post
      ∧ (∀ e ∈ pre, isCaptureEvent e = false ∧ isStartUploadEvent e = false
          ∧ isInsertEvent e = false)
      ∧ ∀ e ∈ post, isCaptureEvent e = false

lemma positionCaptureOnce_generic (selFrom : Nat) (w : List GestureEvent)
    (imgs : List JSFile) (hw : ∀ e ∈ w, isWarnEvent e = true)
    (outcome : JSFile → UploadOutcome) (order : List UploadTask)
    (hord : order.Perm (imgs.map fun f => { file := f, targetPosition := selFrom })) :
    PositionCaptureOnce selFrom
      { events := w ++ [.captureSelection selFrom]
          ++ imgs.map (fun f => .startUpload f)
        tasks := imgs.map (fun f => { file := f, targetPosition := selFrom })
        prevented := true
        handled := true } outcome order := by
  have htask : ∀ t ∈ imgs.map (fun f => ({ file := f, targetPosition := selFrom } : UploadTask)),
      t.targetPosition = selFrom := by
    intro t ht
    obtain ⟨f, _, rfl⟩ := List.mem_map.mp ht
    rfl
  refine ⟨htask, ?_, ?_⟩
  · intro p a hmem
    unfold gestureTrace at hmem
    simp only [List.mem_append, List.mem_singleton, List.mem_map] at hmem
    rcases hmem with ((hmem | hmem) | hmem) | hmem
    · have := (warn_not_special _ (hw _ hmem)).2.2
      simp [isInsertEvent] at this
    · cases hmem
    · obtain ⟨f, _, hc⟩ := hmem
      cases hc
    · rw [mem_completionEvents] at hmem
      obtain ⟨t, htord, hin⟩ := hmem
      obtain ⟨hp, _⟩ := insert_mem_completeTask outcome t p a hin
      rw [hp]
      exact htask t (hord.mem_iff.mp htord)
  · refine ⟨w, imgs.map (fun f => .startUpload f) ++ completionEvents outcome order,
      ?_, ?_, ?_⟩
    · unfold gestureTrace
      simp
    · intro e he
      exact warn_not_special e (hw e he)
    · intro e he
      rcases List.mem_append.mp he with h1 | h1
      · obtain ⟨f, _, rfl⟩ := List.mem_map.mp h1
        rfl
      · rw [mem_completionEvents] at h1
        obtain ⟨t, _, hin⟩ := h1
        exact (completeTask_no_capture outcome t e hin).1

lemma warn_if_all_warn (c : Prop) [Decidable c] (msg : String) :
    ∀ e ∈ (if c then [GestureEvent.warnToast msg] else []), isWarnEvent e = true := by
  intro e he
  split at he
  · rw [List.mem_singleton.mp he]
    rfl
  · cases he

/-- C1: for every drop or paste gesture with at least one accepted file,
the insertion position is read from the selection exactly once,
synchronously, before any upload begins; every accepted file's pending
task closes over that captured position, and in every order in which the
uploads settle, every insertion transaction targets exactly the captured
position — it is never recomputed at completion time. -/
theorem drop_paste_position_captured_once (selectionFrom : Nat) (files : List JSFile)
    (outcome : JSFile → UploadOutcome) (order : List UploadTask) :
    ((handleDropSync selectionFrom files).tasks ≠ [] →
      order.Perm (handleDropSync selectionFrom files).tasks →
      PositionCaptureOnce selectionFrom (handleDropSync selectionFrom files)
        outcome order)
    ∧ ((handlePasteSync selectionFrom files).tasks ≠ [] →
      order.Perm (handlePasteSync selectionFrom files).tasks →
      PositionCaptureOnce selectionFrom (handlePasteSync selectionFrom files)
        outcome order) := by
  constructor
  · intro ht hord
    have hacc : files.filter (fun f => acceptedTypes.contains f.type) ≠ [] := by
      intro hc
      exact ht (by rw [handleDropSync_rejected selectionFrom files hc]; rfl)
    rw [handleDropSync_accepted selectionFrom files hacc] at hord ⊢
    exact positionCaptureOnce_generic selectionFrom (gestureWarnEvents dropWarnMsg files) _
      (warn_if_all_warn _ dropWarnMsg) outcome order hord
  · intro ht hord
    have hacc : files.filter (fun f => acceptedTypes.contains f.type) ≠ [] := by
      intro hc
      exact ht (by rw [handlePasteSync_rejected selectionFrom files hc]; rfl)
    rw [handlePasteSync_accepted selectionFrom files hacc] at hord ⊢
    exact positionCaptureOnce_generic selectionFrom (gestureWarnEvents pasteWarnMsg files) _
      (warn_if_all_warn _ pasteWarnMsg) outcome order hord

/-- The two files of the concrete two-file gesture. -/
def pngFileA : JSFile := { name := "a.png", type := "image/png" }

/-- Second file of the concrete two-file gesture. -/
def pngFileB : JSFile := { name := "b.png", type := "image/png" }

/-- A completion order in which the second file's upload settles first. -/
def reversedOrder : List UploadTask :=
  [{ file := pngFileB, targetPosition := 5 }, { file := pngFileA, targetPosition := 5 }]

/-- Concrete instance: two files dropped in one gesture, B's upload
resolving before A's — both insertions still target the captured
position. -/
theorem drop_paste_position_captured_once_witness :
    PositionCaptureOnce 5 (handleDropSync 5 [pngFileA, pngFileB])
      (fun f => .success f.name) reversedOrder :=
  (drop_paste_position_captured_once 5 [pngFileA, pngFileB]
    (fun f => .success f.name) reversedOrder).1 (by decide) (by decide)

/-!
## Claim C8: one aggregate warning, abort on all-rejected, accepted files proceed
-/

lemma countP_warn_if (c : Prop) [Decidable c] (msg : String) :
    (if c then [GestureEvent.warnToast msg] else []).countP (fun e => isWarnEvent e)
      = if c then 1 else 0 := by
  split <;> simp [List.countP_cons, isWarnEvent]

lemma countP_map_startUpload (imgs : List JSFile) (p : GestureEvent → Bool)
    (hp : ∀ f, p (.startUpload f) = false) :
    (imgs.map (fun f => GestureEvent.startUpload f)).countP p = 0 := by
  rw [List.countP_eq_zero]
  intro e he
  obtain ⟨f, _, rfl⟩ := List.mem_map.mp he
  simp [hp f]

lemma countP_warn_if_insert (c : Prop) [Decidable c] (msg : String)
    (p : GestureEvent → Bool) (hp : ∀ m, p (.warnToast m) = false) :
    (if c then [GestureEvent.warnToast msg] else []).countP p = 0 := by
  split <;> simp [List.countP_cons, hp]

/-- Batch semantics of one gesture: one aggregate warning when anything
was rejected and none otherwise; a fully rejected gesture leaves no
tasks, is unhandled, and its whole trace is that single warning; every
accepted file's upload starts and, on success, inserts at the captured
position; and the number of insertions equals the number of successful
uploads. -/
def RejectedBatchSemantics (selectionFrom : Nat) (files : List JSFile)
    (sync : SyncResult) (outcome : JSFile → UploadOutcome)
    (order : List UploadTask) : Prop :=
  ((files.filter fun f => !acceptedTypes.contains f.type) ≠ [] →
      sync.events.countP (fun e => isWarnEvent e) = 1)
  ∧ ((files.filter fun f => !acceptedTypes.contains f.type) = [] →
      sync.events.countP (fun e => isWarnEvent e) = 0)
  ∧ ((files.filter fun f => acceptedTypes.contains f.type) = [] →
      sync.tasks = [] ∧ sync.handled = false ∧ sync.prevented = false
      ∧ gestureTrace sync outcome order = sync.events
      ∧ ∀ e ∈ sync.events, isWarnEvent e = true)
  ∧ (∀ f ∈ files.filter (fun f => acceptedTypes.contains f.type),
      GestureEvent.startUpload f ∈ sync.events
      ∧ ∀ u, outcome f = .success u →
          GestureEvent.insertNode selectionFrom { src := some (.str u) }
            ∈ gestureTrace sync outcome order)
  ∧ (gestureTrace sync outcome order).countP (fun e => isInsertEvent e)
      = order.countP (fun t => isSuccessOutcome (outcome t.file))

lemma rejectedBatch_of_shapes (selectionFrom : Nat) (files : List JSFile) (msg : String)
    (sync : SyncResult)
    (hrej : files.filter (fun f => acceptedTypes.contains f.type) = [] →
      sync = rejectedSync msg files)
    (hacc : files.filter (fun f => acceptedTypes.contains f.type) ≠ [] →
      sync = acceptedSync msg selectionFrom files)
    (outcome : JSFile → UploadOutcome) (order : List UploadTask)
    (horder : order.Perm sync.tasks) :
    RejectedBatchSemantics selectionFrom files sync outcome order := by
  have hwarncount : sync.events.countP (fun e => isWarnEvent e)
      = if 0 < (files.filter fun f => !acceptedTypes.contains f.type).length
        then 1 else 0 := by
    by_cases hc : files.filter (fun f => acceptedTypes.contains f.type) = []
    · rw [hrej hc]
      exact countP_warn_if _ msg
    · rw [hacc hc]
      show ((gestureWarnEvents msg files ++ _) ++ _).countP _ = _
      rw [List.countP_append, List.countP_append]
      rw [show (gestureWarnEvents msg files).countP (fun e => isWarnEvent e)
          = if 0 < (files.filter fun f => !acceptedTypes.contains f.type).length
            then 1 else 0 from countP_warn_if _ msg]
      rw [countP_map_startUpload _ _ (fun f => rfl)]
      simp [List.countP_cons, isWarnEvent]
  have hinsertzero : sync.events.countP (fun e => isInsertEvent e) = 0 := by
    by_cases hc : files.filter (fun f => acceptedTypes.contains f.type) = []
    · rw [hrej hc]
      exact countP_warn_if_insert _ msg _ (fun m => rfl)
    · rw [hacc hc]
      show ((gestureWarnEvents msg files ++ _) ++ _).countP _ = _
      rw [List.countP_append, List.countP_append]
      rw [show (gestureWarnEvents msg files).countP (fun e => isInsertEvent e) = 0
          from countP_warn_if_insert _ msg _ (fun m => rfl)]
      rw [countP_map_startUpload _ _ (fun f => rfl)]
      simp [List.countP_cons, isInsertEvent]
  refine ⟨?_, ?_, ?_, ?_, ?_⟩
  · intro hinv
    rw [hwarncount, if_pos (by cases hl : files.filter (fun f => !acceptedTypes.contains f.type); exact absurd hl hinv; simp [hl])]
  · intro hinv
    rw [hwarncount, if_neg (by rw [hinv]; simp)]
  · intro hc
    rw [hrej hc]
    have hordnil : order = [] := by
      have := horder
      rw [hrej hc] at this
      exact this.eq_nil
    subst hordnil
    refine ⟨rfl, rfl, rfl, by simp [gestureTrace, completionEvents], ?_⟩
    exact warn_if_all_warn _ msg
  · intro f hf
    have hc : files.filter (fun f => acceptedTypes.contains f.type) ≠ [] := by
      intro h0
      rw [h0] at hf
      cases hf
    rw [hacc hc]
    constructor
    · show GestureEvent.startUpload f ∈ (_ ++ _) ++ _
      simp only [List.mem_append, List.mem_map]
      exact Or.inr ⟨f, hf, rfl⟩
    · intro u hu
      have htmem : ({ file := f, targetPosition := selectionFrom } : UploadTask)
          ∈ order := by
        apply (horder.mem_iff).mpr
        rw [hacc hc]
        exact List.mem_map.mpr ⟨f, hf, rfl⟩
      unfold gestureTrace
      apply List.mem_append.mpr
      right
      rw [mem_completionEvents]
      refine ⟨{ file := f, targetPosition := selectionFrom }, htmem, ?_⟩
      unfold completeTask
      rw [show outcome ({ file := f, targetPosition := selectionFrom } : UploadTask).file
          = .success u from hu]
      exact List.mem_cons_self _ _
  · unfold gestureTrace
    rw [List.countP_append, hinsertzero, countP_insert_completionEvents]
    simp

/-- C8: for every drop or paste gesture, a batch containing rejected
files produces exactly one aggregate warning (never one per file); if
every file is rejected the gesture aborts unhandled with no capture, no
task and no insertion; and every accepted file is still uploaded and, on
success, inserted at the captured position — one insertion per successful
upload. -/
theorem drop_paste_rejected_batch (selectionFrom : Nat) (files : List JSFile)
    (outcome : JSFile → UploadOutcome) (orderD orderP : List UploadTask)
    (hD : orderD.Perm (handleDropSync selectionFrom files).tasks)
    (hP : orderP.Perm (handlePasteSync selectionFrom files).tasks) :
    RejectedBatchSemantics selectionFrom files (handleDropSync selectionFrom files)
      outcome orderD
    ∧ RejectedBatchSemantics selectionFrom files (handlePasteSync selectionFrom files)
      outcome orderP :=
  ⟨rejectedBatch_of_shapes selectionFrom files dropWarnMsg _
      (handleDropSync_rejected selectionFrom files)
      (handleDropSync_accepted selectionFrom files) outcome orderD hD,
    rejectedBatch_of_shapes selectionFrom files pasteWarnMsg _
      (handlePasteSync_rejected selectionFrom files)
      (handlePasteSync_accepted selectionFrom files) outcome orderP hP⟩

/-- The invalid text file of the concrete mixed gesture. -/
def txtFile : JSFile := { name := "notes.txt", type := "text/plain" }

/-- Concrete instance: one valid PNG plus one invalid `.txt` in a single
drop yields exactly one warning and exactly one successful insertion. -/
theorem drop_paste_rejected_batch_witness :
    RejectedBatchSemantics 5 [pngFileA, txtFile] (handleDropSync 5 [pngFileA, txtFile])
      (fun f => .success f.name) [{ file := pngFileA, targetPosition := 5 }] :=
  (drop_paste_rejected_batch 5 [pngFileA, txtFile] (fun f => .success f.name)
    [{ file := pngFileA, targetPosition := 5 }]
    [{ file := pngFileA, targetPosition := 5 }] (by decide) (by decide)).1

/-!
## Claim C7: the URL policy
-/

/-- C7: `isAllowedUri` parses a raw URL containing `:` as absolute and
otherwise prepends `<defaultProtocol>://`; a parse exception rejects; a
protocol in the fixed disallowed set rejects, as does a protocol outside
the caller-supplied allowed set, and so does a denylisted hostname.
Concretely, `javascript:alert(1)` is rejected, `ftp://host/x` is rejected
regardless of the domain denylist, and `example.com` with default
protocol `https` is parsed as `https://example.com` and accepted. -/
theorem isAllowedUri_policy :
    (∀ url ctx, url.toList.contains ':' = true → linkParsedUrl url ctx = parseURL url)
    ∧ (∀ url ctx, url.toList.contains ':' = false →
        linkParsedUrl url ctx = parseURL (ctx.defaultProtocol ++ ("://") ++ url))
    ∧ (∀ dl url ctx, linkParsedUrl url ctx = none → isAllowedUriWith dl url ctx = false)
    ∧ (∀ dl url ctx u, linkParsedUrl url ctx = some u →
        disallowedProtocols.contains
            (String.mk (removeFirstColon u.protocol.toList)) = true →
        isAllowedUriWith dl url ctx = false)
    ∧ (∀ dl url ctx u, linkParsedUrl url ctx = some u →
        ctx.protocols.contains (String.mk (removeFirstColon u.protocol.toList)) = false →
        isAllowedUriWith dl url ctx = false)
    ∧ (∀ dl url ctx u, linkParsedUrl url ctx = some u →
        dl.contains u.hostname = true →
        isAllowedUriWith dl url ctx = false)
    ∧ isAllowedUri ("javascript:alert(1)") linkCtx = false
    ∧ (∀ dl, isAllowedUriWith dl ("ftp://host/x") linkCtx = false)
    ∧ linkParsedUrl ("example.com") linkCtx
        = some { protocol := "https:", hostname := "example.com" }
    ∧ isAllowedUri ("example.com") linkCtx = true := by
  refine ⟨?_, ?_, ?_, ?_, ?_, ?_, by decide, ?_, by decide, by decide⟩
  · intro url ctx h
    unfold linkParsedUrl
    rw [if_pos h]
  · intro url ctx h
    unfold linkParsedUrl
    rw [if_neg (by rw [h]; exact Bool.false_ne_true)]
  · intro dl url ctx h
    unfold isAllowedUriWith
    rw [h]
  · intro dl url ctx u h h2
    unfold isAllowedUriWith
    rw [h]
    simp only [h2, if_true]
  · intro dl url ctx u h h2
    unfold isAllowedUriWith
    rw [h]
    by_cases hd : disallowedProtocols.contains
        (String.mk (removeFirstColon u.protocol.toList)) = true
    · simp only [hd, if_true]
    · simp only [hd, if_false, h2]
      simp
  · intro dl url ctx u h h2
    have h2' : u.hostname ∈ dl := by simpa using h2
    unfold isAllowedUriWith
    rw [h]
    by_cases hd : disallowedProtocols.contains
        (String.mk (removeFirstColon u.protocol.toList)) = true <;>
      by_cases hb : ctx.protocols.contains
          (String.mk (removeFirstColon u.protocol.toList)) = true <;>
        simp [hd, hb, h2, h2']
  · intro dl
    have hp : linkParsedUrl ("ftp://host/x") linkCtx
        = some { protocol := "ftp:", hostname := "host" } := by decide
    unfold isAllowedUriWith
    rw [hp]
    rfl

/-- Concrete instance of the policy theorem: a `mailto:` destination is
rejected even with an empty domain denylist, via the
disallowed-protocol clause. -/
theorem isAllowedUri_policy_witness :
    isAllowedUriWith [] ("mailto:a@b") linkCtx = false :=
  isAllowedUri_policy.2.2.2.1 [] ("mailto:a@b") linkCtx
    { protocol := "mailto:", hostname := "" } (by decide) (by decide)

/-!
## Claim C10: the file picker processes at most the first file
-/

/-- The outcome `handleFileChange` reports for an unsupported first
file. -/
def pickerTypeError : FilePickOutcome :=
  { errorToasts := [("Please select a valid image file (JPEG, PNG, or GIF).")]
    uploadedFile := none
    insertedAttrs := none }

/-- C10: the file picker reads only the first file of the selection — the
uploaded file, if any, is the head of the list and is uploaded only when
its type is allowed; an unsupported first file is reported with one error
toast and no upload and no insertion; and an inserted node carries only
`src` from the upload result, every other attribute left null. -/
theorem file_picker_first_file_only (files : List JSFile)
    (outcome : JSFile → UploadOutcome) :
    ((handleFileChange files outcome).uploadedFile
        = match files.head? with
          | none => none
          | some f => if acceptedTypes.contains f.type then some f else none)
    ∧ (∀ f, files.head? = some f → acceptedTypes.contains f.type = false →
        handleFileChange files outcome = pickerTypeError)
    ∧ (∀ a, (handleFileChange files outcome).insertedAttrs = some a →
        ∃ f u, files.head? = some f ∧ outcome f = .success u
          ∧ a = { src := some (.str u), alt := none, title := none, width := none,
                  height := none, href := none }) := by
  unfold handleFileChange
  rcases hh : files.head? with _ | f
  · refine ⟨rfl, ?_, ?_⟩
    · intro f hf _
      cases hf
    · intro a ha
      simp at ha
  · dsimp only
    by_cases hc : acceptedTypes.contains f.type = true
    · rw [if_neg (by rw [hc]; simp)]
      refine ⟨?_, ?_, ?_⟩
      · have hcm : f.type ∈ acceptedTypes := by simpa using hc
        rcases ho : outcome f with u | _ <;> simp [hcm]
      · intro f' hf' hc'
        obtain rfl := Option.some_injective _ hf'
        rw [hc] at hc'
        cases hc'
      · intro a ha
        rcases ho : outcome f with u | _
        · refine ⟨f, u, rfl, ho, ?_⟩
          rw [ho] at ha
          simpa using ha.symm
        · rw [ho] at ha
          simp at ha
    · simp only [Bool.not_eq_true] at hc
      rw [if_pos (by rw [hc]; rfl)]
      have hcm : f.type ∉ acceptedTypes := by simpa using hc
      refine ⟨by simp [hcm], fun f' hf' hc' => rfl, ?_⟩
      intro a ha
      simp [pickerTypeError] at ha

/-- Concrete instance: a picker gesture offering two files uploads only
the first, and the inserted node carries only the resulting `src`. -/
theorem file_picker_first_file_only_witness :
    ∃ f u, ([pngFileA, pngFileB].head? = some f)
      ∧ (fun g => UploadOutcome.success g.name) f = .success u
      ∧ ({ src := some (.str "a.png") } : NodeAttrs)
          = { src := some (.str u), alt := none, title := none, width := none,
              height := none, href := none } :=
  (file_picker_first_file_only [pngFileA, pngFileB]
    (fun g => UploadOutcome.success g.name)).2.2 { src := some (.str "a.png") } (by decide)

/-!
## Helper lemmas: greedy quantifier splits
-/

lemma findSome?_eq_some_of_get {α β : Type} (l : List α) (f : α → Option β) (b : β) :
    ∀ (i : Nat) (hi : i < l.length),
      (∀ j (hj : j < l.length), j < i → f (l.get ⟨j, hj⟩) = none) →
      f (l.get ⟨i, hi⟩) = some b →
      l.findSome? f = some b := by
  induction l with
  | nil => intro i hi _ _; cases hi
  | cons x xs ih =>
    intro i hi hfail hsucc
    cases i with
    | zero =>
      rw [List.findSome?_cons]
      rw [show f x = some b from hsucc]
    | succ i' =>
      rw [List.findSome?_cons]
      rw [show f x = none from hfail 0 (by simp) (Nat.succ_pos i')]
      exact ih i' (by simpa using hi)
        (fun j hj hji => hfail (j + 1) (by simpa using hj) (by omega)) hsucc

lemma findSome?_eq_none_of {α β : Type} (l : List α) (f : α → Option β)
    (h : ∀ x ∈ l, f x = none) : l.findSome? f = none := by
  induction l with
  | nil => rfl
  | cons x xs ih =>
    rw [List.findSome?_cons, h x (List.mem_cons_self x xs)]
    exact ih (fun x hx => h x (List.mem_cons_of_mem _ hx))

lemma exists_of_findSome?_eq_some {α β : Type} (l : List α) (f : α → Option β) (b : β)
    (h : l.findSome? f = some b) : ∃ x ∈ l, f x = some b := by
  induction l with
  | nil => cases h
  | cons x xs ih =>
    rw [List.findSome?_cons] at h
    rcases hx : f x with _ | b'
    · rw [hx] at h
      obtain ⟨y, hy, hfy⟩ := ih h
      exact ⟨y, List.mem_cons_of_mem _ hy, hfy⟩
    · rw [hx] at h
      obtain rfl := Option.some_injective _ h
      exact ⟨x, List.mem_cons_self x xs, hx⟩

lemma take_takeWhile_eq_take (p : Char → Bool) (l : List Char) (k : Nat)
    (h : k ≤ (l.takeWhile p).length) :
    (l.takeWhile p).take k = l.take k := by
  have h2 : l.take k = ((l.takeWhile p) ++ (l.dropWhile p)).take k := by
    rw [List.takeWhile_append_dropWhile]
  rw [h2, List.take_append_eq_append_take,
    show k - (l.takeWhile p).length = 0 from by omega]
  simp

lemma mem_of_mem_take_takeWhile (p : Char → Bool) (l : List Char) (k : Nat) (c : Char)
    (h : c ∈ (l.takeWhile p).take k) : p c = true :=
  List.mem_takeWhile_imp (List.mem_of_mem_take h)

/-- Compute a greedy one-or-more quantifier: if every split strictly
longer than `L` fails and the split at `L` succeeds, the backtracking
returns the split at `L`. -/
lemma findSome?_greedySplits {β : Type} (p : Char → Bool) (l : List Char)
    (f : List Char × List Char → Option β) (b : β) (L : Nat)
    (hL1 : 1 ≤ L) (hL2 : L ≤ (l.takeWhile p).length)
    (hsucc : f (l.take L, l.drop L) = some b)
    (hfail : ∀ k, L < k → k ≤ (l.takeWhile p).length → f (l.take k, l.drop k) = none) :
    (greedySplits p l).findSome? f = some b := by
  unfold greedySplits
  set N := (l.takeWhile p).length with hN
  rw [List.findSome?_map]
  apply findSome?_eq_some_of_get (List.range N) _ b (N - L) (by simp; omega)
  · intro j hj hji
    simp only [Function.comp_apply, List.get_eq_getElem, List.getElem_range]
    rw [take_takeWhile_eq_take p l (N - j) (by omega)]
    exact hfail (N - j) (by simp at hj; omega) (by omega)
  · simp only [Function.comp_apply, List.get_eq_getElem, List.getElem_range]
    rw [take_takeWhile_eq_take p l (N - (N - L)) (by omega),
      show N - (N - L) = L by omega]
    exact hsucc

/-- A greedy quantifier where every split fails. -/
lemma findSome?_greedySplits_none {β : Type} (p : Char → Bool) (l : List Char)
    (f : List Char × List Char → Option β)
    (hfail : ∀ k, 1 ≤ k → k ≤ (l.takeWhile p).length → f (l.take k, l.drop k) = none) :
    (greedySplits p l).findSome? f = none := by
  unfold greedySplits
  rw [List.findSome?_map]
  apply findSome?_eq_none_of
  intro x hx
  rw [List.mem_range] at hx
  simp only [Function.comp_apply]
  rw [take_takeWhile_eq_take p l ((l.takeWhile p).length - x) (by omega)]
  exact hfail _ (by omega) (by omega)

/-- Membership characterization of the greedy candidate list. -/
lemma mem_greedySplits {p : Char → Bool} {l : List Char} {pr : List Char × List Char}
    (h : pr ∈ greedySplits p l) :
    ∃ k, 1 ≤ k ∧ k ≤ (l.takeWhile p).length ∧ pr = (l.take k, l.drop k) := by
  unfold greedySplits at h
  rw [List.mem_map] at h
  obtain ⟨j, hj, rfl⟩ := h
  rw [List.mem_range] at hj
  refine ⟨(l.takeWhile p).length - j, by omega, by omega, ?_⟩
  rw [take_takeWhile_eq_take p l ((l.takeWhile p).length - j) (by omega)]

/-!
## Helper lemmas: computing the shorthand matcher on well-formed tokens
-/

lemma takeWhile_append_all (p : Char → Bool) (A B : List Char)
    (hA : ∀ c ∈ A, p c = true) : (A ++ B).takeWhile p = A ++ B.takeWhile p := by
  induction A with
  | nil => rfl
  | cons a A' ih =>
    rw [List.cons_append, List.takeWhile_cons, if_pos (hA a (List.mem_cons_self a A')),
      ih (fun c hc => hA c (List.mem_cons_of_mem a hc)), List.cons_append]

lemma takeWhile_stop (p : Char → Bool) (c : Char) (B : List Char) (hc : p c = false) :
    (c :: B).takeWhile p = [] := by
  rw [List.takeWhile_cons, if_neg (by rw [hc]; exact Bool.false_ne_true)]

lemma quote_not_space (c : Char) (h : isQuote c = true) : isJsSpace c = false := by
  unfold isQuote at h
  rcases Bool.or_eq_true_iff.mp h with h1 | h1
  · rw [show c = '"' from by simpa using h1]; rfl
  · rw [show c = '\'' from by simpa using h1]; rfl

lemma matchTitleThenClose_close : matchTitleThenClose [')'] = some none := by decide

lemma matchTitleThenClose_nil : matchTitleThenClose [] = none := by decide

lemma matchTitleThenClose_title (spL tL : List Char) (q1 q2 : Char)
    (hspNE : spL ≠ []) (hspS : ∀ c ∈ spL, isJsSpace c = true)
    (hq1 : isQuote q1 = true) (hq2 : isQuote q2 = true)
    (htNE : tL ≠ []) (htS : ∀ c ∈ tL, isJsSpace c = false) :
    matchTitleThenClose (spL ++ q1 :: (tL ++ [q2, ')'])) = some (some (String.mk tL)) := by
  have hpref : ((spL ++ q1 :: (tL ++ [q2, ')'])).takeWhile isJsSpace) = spL := by
    rw [takeWhile_append_all isJsSpace spL _ hspS,
      takeWhile_stop isJsSpace q1 _ (quote_not_space q1 hq1), List.append_nil]
  have hprefInner : ((tL ++ [q2, ')']).takeWhile fun c => !isJsSpace c)
      = tL ++ [q2, ')'] := by
    apply List.takeWhile_eq_self_iff.mpr
    intro c hc
    rcases List.mem_append.mp hc with hc | hc
    · rw [htS c hc]; rfl
    · rcases List.mem_cons.mp hc with hc2 | hc2
      · rw [hc2, quote_not_space q2 hq2]; rfl
      · rw [List.mem_singleton.mp hc2]; rfl
  have hwt : (greedySplits isJsSpace (spL ++ q1 :: (tL ++ [q2, ')']))).findSome?
      titleGroup = some (some (String.mk tL)) := by
    apply findSome?_greedySplits _ _ _ _ spL.length
      (by cases spL
          · exact absurd rfl hspNE
          · simp)
      (by rw [hpref])
    · rw [List.take_left, List.drop_left]
      unfold titleGroup
      dsimp only
      rw [if_pos hq1]
      apply findSome?_greedySplits _ _ _ _ tL.length
        (by cases tL
            · exact absurd rfl htNE
            · simp)
        (by rw [hprefInner]; simp)
      · rw [List.take_left, List.drop_left]
        unfold titleClosing
        dsimp only
        rw [if_pos ⟨hq2, rfl, rfl⟩]
      · intro k hk1 hk2
        rw [hprefInner] at hk2
        simp only [List.length_append, List.length_cons, List.length_nil] at hk2
        obtain ⟨j, rfl⟩ : ∃ j, k = tL.length + j := ⟨k - tL.length, by omega⟩
        rw [show (tL ++ [q2, ')']).drop (tL.length + j) = [q2, ')'].drop j from
          List.drop_append j]
        have hj : j = 1 ∨ j = 2 := by omega
        rcases hj with rfl | rfl <;> rfl
    · intro k hk1 hk2
      rw [hpref] at hk2
      omega
  unfold matchTitleThenClose
  rw [hwt]

lemma matchSrcTail_no_title (srcL : List Char) (hNE : srcL ≠ [])
    (hS : ∀ c ∈ srcL, isJsSpace c = false) :
    matchSrcTail (srcL ++ [')']) = some (String.mk srcL, none) := by
  have hpref : ((srcL ++ [')']).takeWhile fun c => !isJsSpace c) = srcL ++ [')'] := by
    apply List.takeWhile_eq_self_iff.mpr
    intro c hc
    rcases List.mem_append.mp hc with hc | hc
    · rw [hS c hc]; rfl
    · rw [List.mem_singleton.mp hc]; rfl
  unfold matchSrcTail
  apply findSome?_greedySplits _ _ _ _ srcL.length
    (by cases srcL
        · exact absurd rfl hNE
        · simp)
    (by rw [hpref]; simp)
  · rw [List.take_left, List.drop_left]
    unfold srcCont
    dsimp only
    rw [matchTitleThenClose_close]
    rfl
  · intro k hk1 hk2
    rw [hpref] at hk2
    simp only [List.length_append, List.length_cons, List.length_nil] at hk2
    have hk : k = srcL.length + 1 := by omega
    subst hk
    unfold srcCont
    dsimp only
    rw [show (srcL ++ [')']).drop (srcL.length + 1) = ([')'] : List Char).drop 1 from
      List.drop_append 1]
    rw [show (([')'] : List Char).drop 1) = [] from rfl, matchTitleThenClose_nil]
    rfl

lemma matchSrcTail_title (srcL spL tL : List Char) (q1 q2 : Char)
    (hNE : srcL ≠ []) (hS : ∀ c ∈ srcL, isJsSpace c = false)
    (hspNE : spL ≠ []) (hspS : ∀ c ∈ spL, isJsSpace c = true)
    (hq1 : isQuote q1 = true) (hq2 : isQuote q2 = true)
    (htNE : tL ≠ []) (htS : ∀ c ∈ tL, isJsSpace c = false) :
    matchSrcTail (srcL ++ (spL ++ q1 :: (tL ++ [q2, ')'])))
      = some (String.mk srcL, some (String.mk tL)) := by
  have hpref : ((srcL ++ (spL ++ q1 :: (tL ++ [q2, ')']))).takeWhile
      fun c => !isJsSpace c) = srcL := by
    rw [takeWhile_append_all _ srcL _ (fun c hc => by rw [hS c hc]; rfl)]
    rcases spL with _ | ⟨c0, spL'⟩
    · exact absurd rfl hspNE
    · rw [List.cons_append,
        takeWhile_stop _ c0 _ (by rw [hspS c0 (List.mem_cons_self c0 spL')]; rfl),
        List.append_nil]
  unfold matchSrcTail
  apply findSome?_greedySplits _ _ _ _ srcL.length
    (by cases srcL
        · exact absurd rfl hNE
        · simp)
    (by rw [hpref])
  · rw [List.take_left, List.drop_left]
    unfold srcCont
    dsimp only
    rw [matchTitleThenClose_title spL tL q1 q2 hspNE hspS hq1 hq2 htNE htS]
    rfl
  · intro k hk1 hk2
    rw [hpref] at hk2
    omega

lemma contAfterAlt_cont (alt : String) (rest2 : List Char) :
    contAfterAlt alt (']' :: '(' :: rest2)
      = (matchSrcTail rest2).map fun st => (alt, st.1, st.2) := by
  unfold contAfterAlt
  dsimp only
  rw [if_pos ⟨rfl, rfl⟩]

lemma contAfterAlt_none_of_no_rbracket (a : String) (m : List Char) (hm : ']' ∉ m)
    (j : Nat) : contAfterAlt a (m.drop j) = none := by
  rcases hd : m.drop j with _ | ⟨c, cs⟩
  · rfl
  · have hc : c ∈ m := List.drop_subset j m (hd ▸ List.mem_cons_self c cs)
    rcases cs with _ | ⟨c2, cs2⟩
    · rfl
    · unfold contAfterAlt
      dsimp only
      rw [if_neg (fun hp : c = ']' ∧ c2 = '(' => hm (hp.1 ▸ hc))]

lemma matchAltTail_pos (altL rest2 : List Char) (st : String × Option String)
    (haltNE : altL ≠ []) (halt : ∀ c ∈ altL, isDotChar c = true)
    (hrb : ']' ∉ rest2) (hsome : matchSrcTail rest2 = some st) :
    matchAltTail (altL ++ ']' :: '(' :: rest2) = some (String.mk altL, st.1, st.2) := by
  have hnorb : ']' ∉ ('(' :: rest2) := by
    intro hmem
    rcases List.mem_cons.mp hmem with h | h
    · cases h
    · exact hrb h
  have hvd : (greedySplits isDotChar (altL ++ ']' :: '(' :: rest2)).findSome? altCont
      = some (String.mk altL, st.1, st.2) := by
    apply findSome?_greedySplits _ _ _ _ altL.length
      (by cases altL
          · exact absurd rfl haltNE
          · simp)
      (by rw [takeWhile_append_all isDotChar altL _ halt]; simp)
    · rw [List.take_left, List.drop_left]
      unfold altCont
      dsimp only
      rw [contAfterAlt_cont, hsome]
      rfl
    · intro k hk1 hk2
      unfold altCont
      dsimp only
      obtain ⟨j, rfl⟩ : ∃ j, k = altL.length + (j + 1) := ⟨k - altL.length - 1, by omega⟩
      rw [show (altL ++ ']' :: '(' :: rest2).take (altL.length + (j + 1))
          = altL ++ (']' :: '(' :: rest2).take (j + 1) from List.take_append (j + 1)]
      rw [show (altL ++ ']' :: '(' :: rest2).drop (altL.length + (j + 1))
          = (']' :: '(' :: rest2).drop (j + 1) from List.drop_append (j + 1)]
      rw [List.drop_succ_cons]
      exact contAfterAlt_none_of_no_rbracket _ ('(' :: rest2) hnorb j
  unfold matchAltTail
  rw [hvd]

lemma matchAltTail_empty (rest2 : List Char) (st : String × Option String)
    (hrb : ']' ∉ rest2) (hsome : matchSrcTail rest2 = some st) :
    matchAltTail (']' :: '(' :: rest2) = some ("", st.1, st.2) := by
  have hnorb : ']' ∉ ('(' :: rest2) := by
    intro hmem
    rcases List.mem_cons.mp hmem with h | h
    · cases h
    · exact hrb h
  have hvd : (greedySplits isDotChar (']' :: '(' :: rest2)).findSome? altCont
      = none := by
    apply findSome?_greedySplits_none
    intro k hk1 hk2
    unfold altCont
    dsimp only
    obtain ⟨j, rfl⟩ : ∃ j, k = j + 1 := ⟨k - 1, by omega⟩
    rw [List.drop_succ_cons]
    exact contAfterAlt_none_of_no_rbracket _ ('(' :: rest2) hnorb j
  unfold matchAltTail
  rw [hvd]
  dsimp only
  rw [if_neg (by decide : ¬(']' : Char) = ':')]
  rw [contAfterAlt_cont, hsome]
  rfl

lemma matchToken_eq (rest : List Char) :
    matchToken ('!' :: '[' :: rest) = matchAltTail rest := by
  unfold matchToken
  dsimp only
  rw [if_pos ⟨rfl, rfl⟩]

lemma matchToken_head_ne (x : Char) (r : List Char) (h : x ≠ '!') :
    matchToken (x :: r) = none := by
  cases r with
  | nil => rfl
  | cons y r' =>
    unfold matchToken
    dsimp only
    rw [if_neg (fun hp : x = '!' ∧ y = '[' => h hp.1)]

lemma matchToken_nil : matchToken [] = none := rfl

lemma tryMatchAt_start (l : List Char) (a s : String) (t : Option String)
    (hm : matchToken l = some (a, s, t)) :
    tryMatchAt true l = some ⟨a, s, t⟩ := by
  unfold tryMatchAt
  rw [hm]
  rfl

lemma space_ne_bang (c : Char) (hc : isJsSpace c = true) : c ≠ '!' := by
  intro h
  rw [h] at hc
  cases hc

lemma tryMatchAt_space (atStart : Bool) (c : Char) (l : List Char) (a s : String)
    (t : Option String) (hc : isJsSpace c = true) (hm : matchToken l = some (a, s, t)) :
    tryMatchAt atStart (c :: l) = some ⟨a, s, t⟩ := by
  have hb : matchToken (c :: l) = none := matchToken_head_ne c l (space_ne_bang c hc)
  unfold tryMatchAt
  cases atStart <;> simp [hb, hc, hm]

lemma tryMatchAt_none (atStart : Bool) (x y : Char) (r : List Char)
    (hx : x ≠ '!') (hy : y ≠ '!') :
    tryMatchAt atStart (x :: y :: r) = none := by
  have h1 := matchToken_head_ne x (y :: r) hx
  have h2 := matchToken_head_ne y r hy
  unfold tryMatchAt
  cases atStart <;> simp [h1, h2]

lemma execScan_cons (atStart : Bool) (c : Char) (rest : List Char) :
    execScan atStart (c :: rest)
      = match tryMatchAt atStart (c :: rest) with
        | some m => some m
        | none => execScan false rest := rfl

/-- The leftmost-scan of `exec`: when the text is a benign prefix (no
`!`, ending at line start or in whitespace) followed by a matching token,
the scan lands exactly on the token. -/
lemma execScan_from_prefix (tok : List Char) (a s : String) (t : Option String)
    (hm : matchToken tok = some (a, s, t)) :
    ∀ (pre : List Char) (atStart : Bool), '!' ∉ pre →
      ((pre = [] ∧ atStart = true) ∨ ∃ p c, pre = p ++ [c] ∧ isJsSpace c = true) →
      execScan atStart (pre ++ tok) = some ⟨a, s, t⟩ := by
  intro pre
  induction pre with
  | nil =>
    intro atStart _ hcond
    rcases hcond with ⟨_, rfl⟩ | ⟨p, c, hpc, _⟩
    · rcases htok : tok with _ | ⟨c0, tok'⟩
      · rw [htok] at hm; cases hm
      · show execScan true (c0 :: tok') = _
        rw [execScan_cons, tryMatchAt_start (c0 :: tok') a s t (htok ▸ hm)]
    · exact absurd hpc.symm (List.append_ne_nil_of_right_ne_nil p (by simp))
  | cons x pre' ih =>
    intro atStart hbang hcond
    have hx : x ≠ '!' := fun h => hbang (h ▸ List.mem_cons_self x pre')
    rcases hcond with ⟨hc, _⟩ | ⟨p, c, hpc, hcsp⟩
    · cases hc
    · rcases hp' : pre' with _ | ⟨y, pre''⟩
      · have hxc : x = c := by
          rw [hp'] at hpc
          rcases p with _ | ⟨p0, p'⟩
          · simpa using hpc
          · have hlen := congrArg List.length hpc
            simp at hlen
        show execScan atStart (x :: tok) = _
        rw [execScan_cons, tryMatchAt_space atStart x tok a s t (hxc ▸ hcsp) hm]
      · have hy : y ≠ '!' := fun h =>
          hbang (h ▸ List.mem_cons_of_mem x (hp' ▸ List.mem_cons_self y pre''))
        have htail : ∃ pt, pre' = pt ++ [c] := by
          rcases p with _ | ⟨p0, pt⟩
          · rw [hp'] at hpc
            simp at hpc
          · rw [List.cons_append] at hpc
            injection hpc with h1 h2
            exact ⟨pt, h2⟩
        obtain ⟨pt, hpt⟩ := htail
        have hih := ih false (fun h => hbang (List.mem_cons_of_mem x h))
          (Or.inr ⟨pt, c, hpt, hcsp⟩)
        rw [hp'] at hih
        show execScan atStart (x :: ((y :: pre'') ++ tok)) = _
        rw [execScan_cons]
        rw [show ((y :: pre'') ++ tok : List Char) = y :: (pre'' ++ tok) from rfl,
          tryMatchAt_none atStart x y (pre'' ++ tok) hx hy]
        exact hih

/-!
## Helper lemmas: soundness of the matcher (successful matches decompose
into token shape)
-/

lemma titleClosing_sound (s2 : List Char × List Char) (r : Option String)
    (h : titleClosing s2 = some r) :
    ∃ q2, s2.2 = [q2, ')'] ∧ isQuote q2 = true ∧ r = some (String.mk s2.1) := by
  unfold titleClosing at h
  rcases hs : s2.2 with _ | ⟨q2, cs⟩
  · rw [hs] at h; cases h
  · rcases cs with _ | ⟨c, rest3⟩
    · rw [hs] at h; cases h
    · rw [hs] at h
      dsimp only at h
      by_cases hcond : isQuote q2 = true ∧ c = ')' ∧ rest3 = []
      · rw [if_pos hcond] at h
        obtain ⟨h1, h2, h3⟩ := hcond
        refine ⟨q2, by rw [h2, h3], h1, (Option.some_injective _ h).symm⟩
      · rw [if_neg hcond] at h; cases h

lemma length_takeWhile_le' (p : Char → Bool) (l : List Char) :
    (l.takeWhile p).length ≤ l.length :=
  (List.takeWhile_prefix p).length_le

lemma take_ne_nil_of_bounds (l : List Char) (p : Char → Bool) (k : Nat)
    (hk1 : 1 ≤ k) (hk2 : k ≤ (l.takeWhile p).length) : l.take k ≠ [] := by
  intro hnil
  have hlen := congrArg List.length hnil
  rw [List.length_take, List.length_nil] at hlen
  have := length_takeWhile_le' p l
  omega

lemma all_of_take_bounds (l : List Char) (p : Char → Bool) (k : Nat)
    (hk2 : k ≤ (l.takeWhile p).length) : ∀ c ∈ l.take k, p c = true := by
  intro c hcm
  rw [← take_takeWhile_eq_take p l k hk2] at hcm
  exact mem_of_mem_take_takeWhile p l k c hcm

lemma titleGroup_sound (s1 : List Char × List Char) (r : Option String)
    (h : titleGroup s1 = some r) :
    ∃ q1 tL q2, s1.2 = q1 :: (tL ++ [q2, ')'])
      ∧ isQuote q1 = true ∧ isQuote q2 = true
      ∧ tL ≠ [] ∧ (∀ c ∈ tL, isJsSpace c = false)
      ∧ r = some (String.mk tL) := by
  unfold titleGroup at h
  rcases hs : s1.2 with _ | ⟨q1, rest2⟩
  · rw [hs] at h; cases h
  · rw [hs] at h
    dsimp only at h
    by_cases hq : isQuote q1 = true
    · rw [if_pos hq] at h
      obtain ⟨pr, hpr, hc⟩ := exists_of_findSome?_eq_some _ _ _ h
      obtain ⟨k, hk1, hk2, rfl⟩ := mem_greedySplits hpr
      obtain ⟨q2, hdrop, hq2, hr⟩ := titleClosing_sound _ _ hc
      refine ⟨q1, rest2.take k, q2, ?_, hq, hq2,
        take_ne_nil_of_bounds rest2 _ k hk1 hk2, ?_, hr⟩
      · rw [← hdrop, List.take_append_drop]
      · intro c hcm
        have := all_of_take_bounds rest2 _ k hk2 c hcm
        simpa using this
    · rw [if_neg hq] at h; cases h

lemma matchTitleThenClose_sound (l : List Char) (t : Option String)
    (h : matchTitleThenClose l = some t) :
    (l = [')'] ∧ t = none)
    ∨ ∃ spL q1 tL q2, l = spL ++ q1 :: (tL ++ [q2, ')'])
        ∧ spL ≠ [] ∧ (∀ c ∈ spL, isJsSpace c = true)
        ∧ isQuote q1 = true ∧ isQuote q2 = true
        ∧ tL ≠ [] ∧ (∀ c ∈ tL, isJsSpace c = false)
        ∧ t = some (String.mk tL) := by
  unfold matchTitleThenClose at h
  rcases hf : (greedySplits isJsSpace l).findSome? titleGroup with _ | r
  · rw [hf] at h
    dsimp only at h
    by_cases hl : l = [')']
    · rw [if_pos hl] at h
      exact Or.inl ⟨hl, (Option.some_injective _ h).symm⟩
    · rw [if_neg hl] at h; cases h
  · rw [hf] at h
    dsimp only at h
    obtain rfl := Option.some_injective _ h
    obtain ⟨pr, hpr, hc⟩ := exists_of_findSome?_eq_some _ _ _ hf
    obtain ⟨k, hk1, hk2, rfl⟩ := mem_greedySplits hpr
    obtain ⟨q1, tL, q2, hdrop, hq1, hq2, htNE, htS, hr⟩ := titleGroup_sound _ _ hc
    right
    refine ⟨l.take k, q1, tL, q2, ?_,
      take_ne_nil_of_bounds l _ k hk1 hk2, all_of_take_bounds l _ k hk2,
      hq1, hq2, htNE, htS, hr⟩
    rw [← hdrop, List.take_append_drop]

lemma matchSrcTail_sound (l : List Char) (st : String × Option String)
    (h : matchSrcTail l = some st) :
    ∃ srcL tail, l = srcL ++ tail ∧ srcL ≠ [] ∧ (∀ c ∈ srcL, isJsSpace c = false)
      ∧ st.1 = String.mk srcL ∧ matchTitleThenClose tail = some st.2 := by
  unfold matchSrcTail at h
  obtain ⟨pr, hpr, hc⟩ := exists_of_findSome?_eq_some _ _ _ h
  obtain ⟨k, hk1, hk2, rfl⟩ := mem_greedySplits hpr
  unfold srcCont at hc
  dsimp only at hc
  rcases hm : matchTitleThenClose (l.drop k) with _ | tt
  · rw [hm] at hc; cases hc
  · rw [hm] at hc
    obtain h' := Option.some_injective _ hc
    refine ⟨l.take k, l.drop k, (List.take_append_drop k l).symm,
      take_ne_nil_of_bounds l _ k hk1 hk2, ?_, ?_, ?_⟩
    · intro c hcm
      have := all_of_take_bounds l _ k hk2 c hcm
      simpa using this
    · rw [← h']
    · rw [← h', hm]

lemma contAfterAlt_sound (a : String) (l : List Char) (r : String × String × Option String)
    (h : contAfterAlt a l = some r) :
    ∃ rest2 st, l = ']' :: '(' :: rest2 ∧ matchSrcTail rest2 = some st
      ∧ r = (a, st.1, st.2) := by
  unfold contAfterAlt at h
  rcases l with _ | ⟨c1, l'⟩
  · cases h
  · rcases l' with _ | ⟨c2, rest2⟩
    · cases h
    · dsimp only at h
      by_cases hcond : c1 = ']' ∧ c2 = '('
      · rw [if_pos hcond] at h
        obtain ⟨rfl, rfl⟩ := hcond
        rcases hm : matchSrcTail rest2 with _ | st
        · rw [hm] at h; cases h
        · rw [hm] at h
          exact ⟨rest2, st, rfl, hm, (Option.some_injective _ h).symm⟩
      · rw [if_neg hcond] at h; cases h

lemma matchAltTail_sound (l : List Char) (r : String × String × Option String)
    (h : matchAltTail l = some r) :
    ∃ altL rest2 st, l = altL ++ ']' :: '(' :: rest2
      ∧ (∀ c ∈ altL, isDotChar c = true)
      ∧ matchSrcTail rest2 = some st
      ∧ r = (String.mk altL, st.1, st.2) := by
  unfold matchAltTail at h
  rcases hf : (greedySplits isDotChar l).findSome? altCont with _ | r'
  · rw [hf] at h
    dsimp only at h
    rcases hl : l with _ | ⟨c, rest⟩
    · rw [hl] at h; cases h
    · rw [hl] at h
      dsimp only at h
      by_cases hc : c = ':'
      · rw [if_pos hc] at h
        rcases hca : contAfterAlt (":") rest with _ | r2
        · rw [hca] at h
          dsimp only at h
          obtain ⟨rest2, st, heq, hm, hr⟩ := contAfterAlt_sound _ _ _ h
          refine ⟨[], rest2, st, heq, ?_, hm, hr⟩
          intro c hc'
          cases hc'
        · rw [hca] at h
          dsimp only at h
          obtain rfl := Option.some_injective _ h
          obtain ⟨rest2, st, heq, hm, hr⟩ := contAfterAlt_sound _ _ _ hca
          refine ⟨[':'], rest2, st, by rw [hc, heq, List.singleton_append], ?_, hm, by rw [hr]⟩
          intro c hc'
          rw [List.mem_singleton.mp hc']
          rfl
      · rw [if_neg hc] at h
        obtain ⟨rest2, st, heq, hm, hr⟩ := contAfterAlt_sound _ _ _ h
        refine ⟨[], rest2, st, heq, ?_, hm, hr⟩
        intro c hc'
        cases hc'
  · rw [hf] at h
    dsimp only at h
    obtain rfl := Option.some_injective _ h
    obtain ⟨pr, hpr, hc⟩ := exists_of_findSome?_eq_some _ _ _ hf
    obtain ⟨k, hk1, hk2, rfl⟩ := mem_greedySplits hpr
    unfold altCont at hc
    dsimp only at hc
    obtain ⟨rest2, st, heq, hm, hr⟩ := contAfterAlt_sound _ _ _ hc
    refine ⟨l.take k, rest2, st, ?_, all_of_take_bounds l _ k hk2, hm, hr⟩
    rw [← heq, List.take_append_drop]

lemma matchToken_sound (l : List Char) (r : String × String × Option String)
    (h : matchToken l = some r) :
    ∃ rest, l = '!' :: '[' :: rest ∧ matchAltTail rest = some r := by
  unfold matchToken at h
  rcases l with _ | ⟨c1, l'⟩
  · cases h
  · rcases l' with _ | ⟨c2, rest⟩
    · cases h
    · dsimp only at h
      by_cases hcond : c1 = '!' ∧ c2 = '['
      · rw [if_pos hcond] at h
        obtain ⟨rfl, rfl⟩ := hcond
        exact ⟨rest, rfl, h⟩
      · rw [if_neg hcond] at h; cases h

lemma tryMatchAt_sound (atStart : Bool) (l : List Char) (m : ShorthandMatch)
    (h : tryMatchAt atStart l = some m) :
    (atStart = true ∧ matchToken l = some (m.alt, m.src, m.title))
    ∨ ∃ c rest, l = c :: rest ∧ isJsSpace c = true
        ∧ matchToken rest = some (m.alt, m.src, m.title) := by
  unfold tryMatchAt at h
  cases atStart with
  | false =>
    rw [if_neg Bool.false_ne_true] at h
    dsimp only at h
    right
    rcases hl : l with _ | ⟨c, rest⟩
    · rw [hl] at h; cases h
    · rw [hl] at h
      dsimp only at h
      by_cases hsp : isJsSpace c = true
      · rw [if_pos hsp] at h
        rcases hm : matchToken rest with _ | p
        · rw [hm] at h; cases h
        · rw [hm] at h
          obtain rfl := Option.some_injective _ h
          exact ⟨c, rest, rfl, hsp, by simp [hm]⟩
      · rw [if_neg hsp] at h; cases h
  | true =>
    rw [if_pos rfl] at h
    rcases hm : matchToken l with _ | p
    · rw [hm] at h
      dsimp only at h
      right
      rcases hl : l with _ | ⟨c, rest⟩
      · rw [hl] at h; cases h
      · rw [hl] at h
        dsimp only at h
        by_cases hsp : isJsSpace c = true
        · rw [if_pos hsp] at h
          rcases hm2 : matchToken rest with _ | p
          · rw [hm2] at h; cases h
          · rw [hm2] at h
            obtain rfl := Option.some_injective _ h
            exact ⟨c, rest, rfl, hsp, by simp [hm2]⟩
        · rw [if_neg hsp] at h; cases h
    · rw [hm] at h
      dsimp only at h
      obtain rfl := Option.some_injective _ h
      exact Or.inl ⟨rfl, by simp [hm]⟩

lemma execScan_sound : ∀ (l : List Char) (atStart : Bool) (m : ShorthandMatch),
    execScan atStart l = some m →
    ∃ pre rest, l = pre ++ rest
      ∧ ((pre = [] ∧ atStart = true) ∨ ∃ p c, pre = p ++ [c] ∧ isJsSpace c = true)
      ∧ matchToken rest = some (m.alt, m.src, m.title) := by
  intro l
  induction l with
  | nil =>
    intro atStart m h
    rcases tryMatchAt_sound atStart [] m h with ⟨hs, hm⟩ | ⟨c, rest, hc, _, _⟩
    · cases hm
    · cases hc
  | cons x rest ih =>
    intro atStart m h
    rw [execScan_cons] at h
    rcases ht : tryMatchAt atStart (x :: rest) with _ | m'
    · rw [ht] at h
      dsimp only at h
      obtain ⟨pre', rest', heq, hcond, hm⟩ := ih false m h
      refine ⟨x :: pre', rest', by rw [heq]; rfl, ?_, hm⟩
      rcases hcond with ⟨rfl, hfalse⟩ | ⟨p, c, hpc, hcsp⟩
      · cases hfalse
      · exact Or.inr ⟨x :: p, c, by rw [hpc]; rfl, hcsp⟩
    · rw [ht] at h
      dsimp only at h
      obtain rfl := Option.some_injective _ h
      rcases tryMatchAt_sound atStart (x :: rest) m' ht with ⟨hs, hm⟩ | ⟨c, rest2, hc, hcsp, hm⟩
      · exact ⟨[], x :: rest, rfl, Or.inl ⟨rfl, hs⟩, hm⟩
      · exact ⟨[c], rest2, hc, Or.inr ⟨[], c, rfl, hcsp⟩, hm⟩

/-!
## Helper lemmas: full-token matches
-/

lemma matchToken_no_title (altL srcL : List Char)
    (h3 : altL ≠ []) (h4 : ∀ c ∈ altL, isDotChar c = true)
    (h5 : srcL ≠ []) (h6 : ∀ c ∈ srcL, isJsSpace c = false) (h7 : ']' ∉ srcL) :
    matchToken ('!' :: '[' :: (altL ++ ']' :: '(' :: (srcL ++ [')'])))
      = some (String.mk altL, String.mk srcL, none) := by
  have hrb : ']' ∉ srcL ++ [')'] := by
    intro hmem
    rcases List.mem_append.mp hmem with hm | hm
    · exact h7 hm
    · exact absurd (List.mem_singleton.mp hm) (by decide)
  rw [matchToken_eq]
  exact matchAltTail_pos altL (srcL ++ [')']) (String.mk srcL, none) h3 h4 hrb
    (matchSrcTail_no_title srcL h5 h6)

lemma matchToken_with_title (altL srcL spL tL : List Char) (q1 q2 : Char)
    (h3 : altL ≠ []) (h4 : ∀ c ∈ altL, isDotChar c = true)
    (h5 : srcL ≠ []) (h6 : ∀ c ∈ srcL, isJsSpace c = false) (h7 : ']' ∉ srcL)
    (hspNE : spL ≠ []) (hspS : ∀ c ∈ spL, isJsSpace c = true)
    (hq1 : isQuote q1 = true) (hq2 : isQuote q2 = true)
    (htNE : tL ≠ []) (htS : ∀ c ∈ tL, isJsSpace c = false) (htR : ']' ∉ tL) :
    matchToken ('!' :: '[' :: (altL ++ ']' :: '(' ::
        (srcL ++ (spL ++ q1 :: (tL ++ [q2, ')'])))))
      = some (String.mk altL, String.mk srcL, some (String.mk tL)) := by
  have hrb : ']' ∉ srcL ++ (spL ++ q1 :: (tL ++ [q2, ')'])) := by
    intro hmem
    rcases List.mem_append.mp hmem with hm | hm
    · exact h7 hm
    · rcases List.mem_append.mp hm with hm | hm
      · exact absurd (hspS _ hm) (by decide)
      · rcases List.mem_cons.mp hm with hm | hm
        · rw [← hm] at hq1
          exact absurd hq1 (by decide)
        · rcases List.mem_append.mp hm with hm | hm
          · exact htR hm
          · rcases List.mem_cons.mp hm with hm | hm
            · rw [← hm] at hq2
              exact absurd hq2 (by decide)
            · exact absurd (List.mem_singleton.mp hm) (by decide)
  rw [matchToken_eq]
  exact matchAltTail_pos altL _ (String.mk srcL, some (String.mk tL)) h3 h4 hrb
    (matchSrcTail_title srcL spL tL q1 q2 h5 h6 hspNE hspS hq1 hq2 htNE htS)

lemma matchToken_empty_alt (srcL : List Char)
    (h5 : srcL ≠ []) (h6 : ∀ c ∈ srcL, isJsSpace c = false) (h7 : ']' ∉ srcL) :
    matchToken ('!' :: '[' :: (']' :: '(' :: (srcL ++ [')'])))
      = some ("", String.mk srcL, none) := by
  have hrb : ']' ∉ srcL ++ [')'] := by
    intro hmem
    rcases List.mem_append.mp hmem with hm | hm
    · exact h7 hm
    · exact absurd (List.mem_singleton.mp hm) (by decide)
  rw [matchToken_eq]
  exact matchAltTail_empty (srcL ++ [')']) (String.mk srcL, none) hrb
    (matchSrcTail_no_title srcL h5 h6)

/-- C9 counterexample: typing `![](x)` — an empty alt capture, which is
neither a nonempty `alt` nor the `:` no-alt sentinel the claim
enumerates — nevertheless matches the input rule and instantiates a
node: the `.+` alternative of the alt group fails on the empty string
but the `:?` alternative accepts it. -/
theorem shorthand_empty_alt_counterexample :
    inputRegexExec ("![](x)") = some ⟨"", "x", none⟩
    ∧ ("" : String) ≠ (":")
    ∧ ("" : String).length = 0
    ∧ shorthandAttrs ⟨"", "x", none⟩
      = { src := some (.str "x"), alt := some (.str ""), title := none, width := none, height := none, href := none } := by
  decide

/-- C9 (corrected): the input-rule recognizer fires exactly on a
trailing token `![alt](src)` or `![alt](src "title")` placed after
start-of-text or a whitespace character, where the alt capture is
nonempty line-terminator-free text (with `:` as the claimed no-alt
sentinel) or — beyond the claim's enumerated forms — completely empty,
the src capture is nonempty whitespace-free text, and each title
delimiter is independently a double or single quote; the three captures
become the `src`, `alt`, `title` attributes of the created node, and
conversely every successful match decomposes into such a token after
such a boundary, so no other text triggers node creation. -/
theorem shorthand_token_grammar :
    (∀ pre altL srcL : List Char,
      '!' ∉ pre →
      (pre = [] ∨ ∃ p c, pre = p ++ [c] ∧ isJsSpace c = true) →
      altL ≠ [] → (∀ c ∈ altL, isDotChar c = true) →
      srcL ≠ [] → (∀ c ∈ srcL, isJsSpace c = false) → ']' ∉ srcL →
      inputRegexExec (String.mk (pre ++ '!' :: '[' :: (altL ++ ']' :: '(' :: (srcL ++ [')']))))
        = some ⟨String.mk altL, String.mk srcL, none⟩)
    ∧ (∀ pre altL srcL spL tL : List Char, ∀ q1 q2 : Char,
      '!' ∉ pre →
      (pre = [] ∨ ∃ p c, pre = p ++ [c] ∧ isJsSpace c = true) →
      altL ≠ [] → (∀ c ∈ altL, isDotChar c = true) →
      srcL ≠ [] → (∀ c ∈ srcL, isJsSpace c = false) → ']' ∉ srcL →
      spL ≠ [] → (∀ c ∈ spL, isJsSpace c = true) →
      isQuote q1 = true → isQuote q2 = true →
      tL ≠ [] → (∀ c ∈ tL, isJsSpace c = false) → ']' ∉ tL →
      inputRegexExec (String.mk (pre ++ '!' :: '[' :: (altL ++ ']' :: '(' ::
          (srcL ++ (spL ++ q1 :: (tL ++ [q2, ')']))))))
        = some ⟨String.mk altL, String.mk srcL, some (String.mk tL)⟩)
    ∧ (∀ pre srcL : List Char,
      '!' ∉ pre →
      (pre = [] ∨ ∃ p c, pre = p ++ [c] ∧ isJsSpace c = true) →
      srcL ≠ [] → (∀ c ∈ srcL, isJsSpace c = false) → ']' ∉ srcL →
      inputRegexExec (String.mk (pre ++ '!' :: '[' :: (']' :: '(' :: (srcL ++ [')']))))
        = some ⟨"", String.mk srcL, none⟩)
    ∧ (∀ (s : String) (m : ShorthandMatch), inputRegexExec s = some m →
      ∃ pre altL srcL tail,
        s.toList = pre ++ '!' :: '[' :: (altL ++ ']' :: '(' :: (srcL ++ tail))
        ∧ (pre = [] ∨ ∃ p c, pre = p ++ [c] ∧ isJsSpace c = true)
        ∧ (∀ c ∈ altL, isDotChar c = true)
        ∧ srcL ≠ [] ∧ (∀ c ∈ srcL, isJsSpace c = false)
        ∧ m.alt = String.mk altL ∧ m.src = String.mk srcL
        ∧ ((tail = [')'] ∧ m.title = none)
          ∨ ∃ spL q1 tL q2, tail = spL ++ q1 :: (tL ++ [q2, ')'])
              ∧ spL ≠ [] ∧ (∀ c ∈ spL, isJsSpace c = true)
              ∧ isQuote q1 = true ∧ isQuote q2 = true
              ∧ tL ≠ [] ∧ (∀ c ∈ tL, isJsSpace c = false)
              ∧ m.title = some (String.mk tL)))
    ∧ (∀ m : ShorthandMatch, shorthandAttrs m
        = { src := some (.str m.src), alt := some (.str m.alt), title := m.title.map .str, width := none, height := none, href := none }) := by
  refine ⟨?_, ?_, ?_, ?_, ?_⟩
  · intro pre altL srcL h1 h2 h3 h4 h5 h6 h7
    exact execScan_from_prefix _ _ _ _ (matchToken_no_title altL srcL h3 h4 h5 h6 h7)
      pre true h1 (h2.elim (fun h => Or.inl ⟨h, rfl⟩) Or.inr)
  · intro pre altL srcL spL tL q1 q2 h1 h2 h3 h4 h5 h6 h7 hspNE hspS hq1 hq2 htNE htS htR
    exact execScan_from_prefix _ _ _ _
      (matchToken_with_title altL srcL spL tL q1 q2 h3 h4 h5 h6 h7 hspNE hspS hq1 hq2
        htNE htS htR)
      pre true h1 (h2.elim (fun h => Or.inl ⟨h, rfl⟩) Or.inr)
  · intro pre srcL h1 h2 h5 h6 h7
    exact execScan_from_prefix _ _ _ _ (matchToken_empty_alt srcL h5 h6 h7)
      pre true h1 (h2.elim (fun h => Or.inl ⟨h, rfl⟩) Or.inr)
  · intro s m h
    obtain ⟨pre, rest0, hsplit, hcond, hm0⟩ := execScan_sound s.toList true m h
    obtain ⟨rest, hrest0, hm1⟩ := matchToken_sound rest0 _ hm0
    obtain ⟨altL, rest2, st, hrest, halt, hms, hr⟩ := matchAltTail_sound rest _ hm1
    obtain ⟨srcL, tail, hrest2, hsNE, hsS, hst1, hmt⟩ := matchSrcTail_sound rest2 st hms
    have halteq : m.alt = String.mk altL := congrArg Prod.fst hr
    have hsnd : (m.src, m.title) = (st.1, st.2) := congrArg Prod.snd hr
    have hsrceq : m.src = st.1 := congrArg Prod.fst hsnd
    have htitleeq : m.title = st.2 := congrArg Prod.snd hsnd
    refine ⟨pre, altL, srcL, tail, ?_, ?_, halt, hsNE, hsS, halteq, hsrceq.trans hst1, ?_⟩
    · rw [hsplit, hrest0, hrest, hrest2]
    · rcases hcond with ⟨hp, _⟩ | hp
      · exact Or.inl hp
      · exact Or.inr hp
    · rcases matchTitleThenClose_sound tail st.2 hmt with ⟨ht1, ht2⟩ |
        ⟨spL, q1, tL, q2, ht1, ht2, ht3, ht4, ht5, ht6, ht7, ht8⟩
      · exact Or.inl ⟨ht1, htitleeq.trans ht2⟩
      · exact Or.inr ⟨spL, q1, tL, q2, ht1, ht2, ht3, ht4, ht5, ht6, ht7,
          htitleeq.trans ht8⟩
  · intro m
    rfl

/-- Closed instances of the corrected C9 theorem: the `:` no-alt token
after a space, and the empty-alt token at start of text. -/
theorem shorthand_token_grammar_witness :
    inputRegexExec (String.mk ([' '] ++ '!' :: '[' :: ([':'] ++ ']' :: '(' :: (['x'] ++ [')']))))
      = some ⟨String.mk [':'], String.mk ['x'], none⟩
    ∧ inputRegexExec (String.mk ([] ++ '!' :: '[' :: (']' :: '(' :: (['y'] ++ [')']))))
      = some ⟨"", String.mk ['y'], none⟩ :=
  ⟨shorthand_token_grammar.1 [' '] [':'] ['x'] (by decide)
      (Or.inr ⟨[], ' ', rfl, by decide⟩) (by decide) (by decide) (by decide) (by decide)
      (by decide),
    shorthand_token_grammar.2.2.1 [] ['y'] (by decide) (Or.inl rfl) (by decide) (by decide)
      (by decide)⟩

end TiptapMedia
